import Mathlib

/-!
Verification of the libwebp thumbnailer optimization core against its
specification.  The development shallowly embeds the code of
`src/thumbnailer_slope_optim.cc` and `src/thumbnailer_utils.cc` (with the
data model of `src/thumbnailer.h`).  The external codec, container
assembler and decoder (`GetPictureStats`, `GenerateAnimationNoBudget`,
`WebPPictureDistortion`, `AnimData2Frames`' decoder loop) live outside the
provided sources and are modelled as pure oracles, following the
specification's contract that codec output is a pure, cached function of
(picture, quality) and that assembly is a pure function of the per-frame
configurations.  C `float` arithmetic is modelled by `ℚ`, except that a
division is kept symbolic when its divisor is zero (C would produce
±inf/NaN); C `int` division is `Int.tdiv` (truncation toward zero).
-/

namespace Libwebp

/-- Status codes (thumbnailer.h lines 45-52). -/
inductive Status where
  | kOk
  | kMemoryError
  | kImageFormatError
  | kByteBudgetError
  | kStatsError
deriving DecidableEq, Repr

/-- The per-frame encoding-configuration fields the optimizer reads or
    writes (quality and the lossless switch).  Quality is an `Int` exactly as
    in C: the sentinel -1 can be written into it
    (thumbnailer_slope_optim.cc line 183 copies `final_quality`). -/
structure WebPConfig where
  quality : Int
  lossless : Bool
deriving DecidableEq, Repr

/-- FrameData (thumbnailer.h lines 87-94) together with the `near_lossless`
    flag that thumbnailer_slope_optim.cc uses.  `pid` identifies the owned
    `WebPPicture`; the pixel data itself is external, so the codec oracle is
    keyed by `pid`.  The per-frame `lossy_data` cache is not modelled: the
    oracle is already a pure function, which is exactly the guarantee the
    cache provides (spec §4.1). -/
structure FrameData where
  pid : Nat
  timestamp_ms : Int
  config : WebPConfig
  encoded_size : Int
  final_quality : Int
  final_psnr : ℚ
  near_lossless : Bool
deriving DecidableEq, Repr

instance : Inhabited FrameData := ⟨⟨0, 0, ⟨0, false⟩, 0, -1, 0, false⟩⟩

/-- A `WebPData` buffer: either the empty/initialized buffer (size 0), or an
    animation assembled from a list of (picture id, config) pairs. -/
inductive WebPData where
  | empty
  | data (payload : List (Nat × WebPConfig))
deriving DecidableEq, Repr

/-- Modelled from the spec: the external codec and container assembler.
    `GetPictureStats` and `GenerateAnimationNoBudget` live in
    `thumbnailer.cc`, which is not among the provided sources.  Spec §4.1:
    stats for a fixed (picture, quality) pair are a stable pure function
    (the per-frame cache is authoritative); `stats pid q = (size, psnr)`.
    Spec §4.7: `AssembleNoBudget` encodes every frame at its current config
    in order and returns a byte buffer, never consulting the budget, so the
    resulting byte count is a pure function of the (picture, config)
    sequence. -/
structure Codec where
  stats : Nat → Int → Int × ℚ
  assembleSize : List (Nat × WebPConfig) → Nat

/-- Size in bytes of a buffer (`webp_data->size`). -/
def WebPData.size (c : Codec) : WebPData → Nat
  | .empty => 0
  | .data payload => c.assembleSize payload

/-- The (picture, config) sequence a frame list currently denotes. -/
def framesPayload (frames : List FrameData) : List (Nat × WebPConfig) :=
  frames.map fun f => (f.pid, f.config)

/-- Modelled from the spec (§4.7): `GenerateAnimationNoBudget` assembles the
    animation from the frames' current configs. -/
def generateAnimationNoBudget (frames : List FrameData) : WebPData :=
  .data (framesPayload frames)

/-- The value of a C float division: a finite rational, or `undef` when the
    divisor is zero (the C code would produce ±inf or NaN there). -/
inductive RDSlope where
  | val (s : ℚ)
  | undef
deriving DecidableEq, Repr

/-- C float division `a / b`, keeping division by zero symbolic. -/
def fdiv (a b : ℚ) : RDSlope := if b = 0 then .undef else .val (a / b)

/-- ComputeSlope (thumbnailer_slope_optim.cc lines 98-118): the R-D slope of
    a frame between `low_quality` and `high_quality`, defined as 0 when the
    two encoded sizes are equal (line 111).  The function writes
    `config.quality` before each stats call (lines 101, 106), so the frame
    comes back with `config.quality = high_quality`. -/
def computeSlope (c : Codec) (f : FrameData) (low_quality high_quality : Int) :
    ℚ × FrameData :=
  let low := c.stats f.pid low_quality
  let high := c.stats f.pid high_quality
  let slope : ℚ :=
    if high.1 = low.1 then 0 else (high.2 - low.2) / ((high.1 : ℚ) - (low.1 : ℚ))
  (slope, { f with config := { f.config with quality := high_quality } })

/-- The binary search inside FindMedianSlope (lines 71-85), written with the
    exclusive upper bound `hi = max_quality + 1` so that both bounds stay in
    `Nat` (C's `max_quality` reaches -1 exactly when the loop is about to
    exit).  `mid = (lo + hi - 1) / 2` is C's `(min_quality + max_quality)/2`.
    `acc` is the last recorded boundary: the C code stores only the slope
    `pic_final_slope` (line 80); the quality at which it was recorded is
    carried along so theorems can name the boundary point. -/
def fmsSearch (c : Codec) (pid : Nat) (size100 : Int) (psnr100 : ℚ)
    (lo hi : Nat) (acc : Option (Nat × RDSlope)) : Option (Nat × RDSlope) :=
  if lo < hi then
    let mid := (lo + hi - 1) / 2
    let st := c.stats pid (mid : Int)
    if psnr100 - st.2 ≤ 1 then
      fmsSearch c pid size100 psnr100 lo mid
        (some (mid, fdiv (psnr100 - st.2) ((size100 : ℚ) - (st.1 : ℚ))))
    else
      fmsSearch c pid size100 psnr100 (mid + 1) hi acc
  else acc
termination_by hi - lo
decreasing_by
  all_goals omega

/-- FindMedianSlope's per-frame computation (lines 58-90): stats at quality
    100, then the binary search over [0, 100] (`hi = 101` exclusive).
    A `none` result would mean C's `pic_final_slope` stayed uninitialized;
    quality 100 always satisfies `psnr_100 - new_psnr <= 1.0`, so this never
    happens. -/
def findFrameSlope (c : Codec) (pid : Nat) : Option (Nat × RDSlope) :=
  let st100 := c.stats pid 100
  fmsSearch c pid st100.1 st100.2 0 101 none

/-- Ordering used to model `std::sort` over the float slopes: finite values
    by ≤, and `undef` (the +inf that the unguarded division at line 80
    produces when the sizes are equal) above every finite value. -/
def RDSlope.le (a b : RDSlope) : Prop :=
  match a, b with
  | .val x, .val y => x ≤ y
  | .val _, .undef => True
  | .undef, .undef => True
  | .undef, .val _ => False

instance : DecidableRel RDSlope.le := fun a b => by
  cases a <;> cases b <;> simp only [RDSlope.le] <;> infer_instance

/-- FindMedianSlope (lines 54-96): every frame's boundary slope, sorted; the
    result is the element at index `size/2` (line 93).  `insertionSort`
    models `std::sort` (a sorted permutation; the tie order is unspecified
    in C and no claim depends on it).  The transient writes to
    `config.quality` during probing (lines 59, 73) are not modelled: every
    later read of `config.quality` in LossyEncodeSlopeOptim happens after
    the loop at lines 150-159 or the loop at lines 182-187 has overwritten
    it.  For an empty frame list the C code reads `slopes[0]` out of bounds
    (undefined behavior); the `.undef` default stands in for that read. -/
def findMedianSlope (c : Codec) (frames : List FrameData) : RDSlope :=
  let slopes := frames.map fun f => ((findFrameSlope c f.pid).map Prod.snd).getD .undef
  (slopes.insertionSort RDSlope.le).getD (slopes.length / 2) RDSlope.undef

/-- The comparison `curr_slope > limit_slope` (line 155): `curr_slope` is
    the always-finite result of ComputeSlope; a finite float is never
    greater than +inf. -/
def gtLimit (s : ℚ) (limit : RDSlope) : Bool :=
  match limit with
  | .val l => decide (l < s)
  | .undef => false

/-- Applies `js.foldl` updating the frame at each listed index in place and
    collecting one optional output per visited index — the shape shared by
    every `for (int curr_frame : list)` loop of the source that mutates
    `frames_[curr_frame]`. -/
def updEach {β : Type} (G : Nat → FrameData → FrameData × Option β)
    (frames : List FrameData) : List Nat → List FrameData × List β
  | [] => (frames, [])
  | j :: js =>
    let g := G j (frames.getD j default)
    let r := updEach G (frames.set j g.1) js
    (r.1,
     (match g.2 with
      | some b => [b]
      | none => []) ++ r.2)

/-- `updEach` without any collected output. -/
def updAll (g : FrameData → FrameData) (frames : List FrameData)
    (js : List Nat) : List FrameData :=
  (updEach (fun _ f => (g f, (none : Option Unit))) frames js).1

/-- One scan of `optim_list` inside LossyEncodeSlopeOptim's binary-search
    loop (lines 150-159): every listed frame's local slope between the
    current bounds is computed (leaving its `config.quality` at
    `max_quality = hi - 1`, see `computeSlope`); the frame is kept for the
    next round — and its quality pushed to `mid` — iff its `final_quality`
    is still unset or its slope exceeds `limit_slope`. -/
def slopeStep (c : Codec) (limit : RDSlope) (lo hi mid : Nat)
    (frames : List FrameData) (optimList : List Nat) :
    List FrameData × List Nat :=
  updEach
    (fun i f =>
      let sf := computeSlope c f (lo : Int) (((hi - 1 : Nat) : Int))
      if sf.2.final_quality = -1 ∨ gtLimit sf.1 limit then
        ({ sf.2 with config := { sf.2.config with quality := (mid : Int) } },
         some i)
      else (sf.2, none))
    frames optimList

/-- The binary-search loop of LossyEncodeSlopeOptim (lines 145-178), with
    the exclusive upper bound `hi = max_quality + 1`.  Committing a trial
    (lines 165-171) records `mid` as `final_quality` of every kept frame,
    replaces the output buffer and raises the floor; otherwise the ceiling
    drops and the trial buffer is discarded. -/
def slopeOptimLoop (c : Codec) (B : Nat) (limit : RDSlope)
    (frames : List FrameData) (optimList : List Nat) (webp : WebPData)
    (lo hi : Nat) : List FrameData × WebPData :=
  if lo < hi ∧ optimList ≠ [] then
    let mid := (lo + hi - 1) / 2
    let step := slopeStep c limit lo hi mid frames optimList
    if step.2 = [] then (step.1, webp)
    else
      let neww := generateAnimationNoBudget step.1
      if neww.size c ≤ B then
        slopeOptimLoop c B limit
          (updAll (fun f => { f with final_quality := (mid : Int) }) step.1 step.2)
          step.2 neww (mid + 1) hi
      else
        slopeOptimLoop c B limit step.1 step.2 webp lo mid
  else (frames, webp)
termination_by hi - lo
decreasing_by
  all_goals omega

/-- The sort by ascending timestamp (lines 122-126).  `insertionSort`
    models `std::sort`: some sorted permutation (the order of equal
    timestamps is unspecified in C; no claim depends on it). -/
def sortFrames (frames : List FrameData) : List FrameData :=
  frames.insertionSort (fun a b => a.timestamp_ms ≤ b.timestamp_ms)

/-- The trailing loop of LossyEncodeSlopeOptim (lines 181-187): each frame's
    `config.quality` becomes its `final_quality` and its encoded size and
    PSNR at that quality are cached. -/
def finalStats (c : Codec) (frames : List FrameData) : List FrameData :=
  frames.map fun f =>
    let st := c.stats f.pid f.final_quality
    { f with config := { f.config with quality := f.final_quality },
             encoded_size := st.1, final_psnr := st.2 }

/-- LossyEncodeSlopeOptim (lines 120-191).  Codec failures (the
    `kStatsError`/`kMemoryError` propagation of `CHECK_THUMBNAILER_STATUS`)
    are not modelled because the oracle is total: the run corresponds to an
    execution in which every codec call succeeds. -/
def lossyEncodeSlopeOptim (c : Codec) (B minLossyQuality : Nat)
    (frames : List FrameData) (webp : WebPData) :
    Status × List FrameData × WebPData :=
  let sorted := sortFrames frames
  let limit := findMedianSlope c sorted
  let lw := slopeOptimLoop c B limit sorted (List.range sorted.length) webp
    minLossyQuality 101
  let fr := finalStats c lw.1
  ((if 0 < lw.2.size c then Status.kOk else Status.kByteBudgetError), fr, lw.2)

/-- C's truncating `int` midpoint `(min + max) / 2` stays between the
    bounds. -/
theorem tdiv2_between (a b : Int) (h : a ≤ b) :
    a ≤ (a + b).tdiv 2 ∧ (a + b).tdiv 2 ≤ b := by
  rcases le_or_lt 0 (a + b) with hs | hs
  · rw [Int.tdiv_eq_ediv hs (by norm_num)]
    omega
  · have h1 : a + b = -(-(a + b)) := by ring
    rw [h1, Int.neg_tdiv, Int.tdiv_eq_ediv (by omega) (by norm_num)]
    omega

/-- The per-frame binary search of LossyEncodeNoSlopeOptim (lines 213-237).
    All quality bounds and sizes are C `int`s; `rem` is
    `num_remaining_frames`.  A candidate quality `mid` is accepted (lines
    220-230) iff it strictly improves the frame's PSNR, or matches it with
    no larger size, and additionally its size delta fits the per-remaining-
    frame share `(byte_budget - anim_size) / num_remaining_frames` of the
    slack (C `int` division; the comparison happens in float but both sides
    are exact there).  An acceptance updates the frame's cached fields and
    the running `anim_size` at once. -/
def fsLoop (c : Codec) (B : Nat) (rem : Int) (minQ maxQ : Int)
    (f : FrameData) (anim : Int) : FrameData × Int :=
  if h : minQ ≤ maxQ then
    let mid := (minQ + maxQ).tdiv 2
    let f1 := { f with config := { f.config with quality := mid } }
    let st := c.stats f.pid mid
    if st.2 > f.final_psnr ∨ (st.2 = f.final_psnr ∧ st.1 ≤ f.encoded_size) then
      if st.1 - f.encoded_size ≤ ((B : Int) - anim).tdiv rem then
        fsLoop c B rem (mid + 1) maxQ
          { f1 with encoded_size := st.1, final_psnr := st.2,
                    final_quality := mid, near_lossless := false }
          (anim - f.encoded_size + st.1)
      else fsLoop c B rem minQ (mid - 1) f1 anim
    else fsLoop c B rem (mid + 1) maxQ f1 anim
  else (f, anim)
termination_by (maxQ + 1 - minQ).toNat
decreasing_by
  all_goals
    have hb := tdiv2_between minQ maxQ h
    omega

/-- One frame's processing in LossyEncodeNoSlopeOptim's scan (lines
    206-212): the search floor is 70 when the frame's config is lossless and
    its `final_quality` otherwise; the ceiling is `min(floor + 30, 100)`;
    `config.lossless` is cleared before the search. -/
def frameSearchNoSlope (c : Codec) (B : Nat) (rem : Int)
    (f : FrameData) (anim : Int) : FrameData × Int :=
  let minQ : Int := if f.config.lossless then 70 else f.final_quality
  let maxQ : Int := min (minQ + 30) 100
  fsLoop c B rem minQ maxQ
    { f with config := { f.config with lossless := false } } anim

/-- The whole scan of LossyEncodeNoSlopeOptim (lines 201-241): frames in
    order, each one seeing the animation size left by its predecessors;
    `num_remaining_frames` counts down by one per frame. -/
def scanNoSlope (c : Codec) (B : Nat) :
    List FrameData → Int → Int → List FrameData × Int
  | [], _rem, anim => ([], anim)
  | f :: rest, rem, anim =>
    let fa := frameSearchNoSlope c B rem f anim
    let ra := scanNoSlope c B rest (rem - 1) fa.2
    (fa.1 :: ra.1, ra.2)

/-- Lines 243-246: reset every frame's config to
    `(final_quality, near_lossless)` before reassembling. -/
def restoreConfigs (frames : List FrameData) : List FrameData :=
  frames.map fun f =>
    { f with config := { quality := f.final_quality, lossless := f.near_lossless } }

/-- Modelled from the spec: `GetAnimationSize` lives in `thumbnailer.cc`,
    which is not among the provided sources; per §4.4 it reads the current
    animation's byte count. -/
def getAnimationSize (c : Codec) (webp : WebPData) : Int := (webp.size c : Int)

/-- LossyEncodeNoSlopeOptim (lines 193-268).  If the current animation
    already exceeds the budget the pass returns `kOk` at once (lines
    197-199).  After the scan the animation is reassembled; the new buffer
    replaces the old one only when it fits the budget, otherwise it is
    discarded and the pass returns `kOk` with the previous buffer (lines
    248-258) — the per-frame fields keep whatever the scan set. -/
def lossyEncodeNoSlopeOptim (c : Codec) (B : Nat) (frames : List FrameData)
    (webp : WebPData) : Status × List FrameData × WebPData :=
  if getAnimationSize c webp > (B : Int) then (Status.kOk, frames, webp)
  else
    let scanned := scanNoSlope c B frames (frames.length : Int)
      (getAnimationSize c webp)
    let fr := restoreConfigs scanned.1
    let neww := generateAnimationNoBudget fr
    if neww.size c ≤ B then
      ((if 0 < neww.size c then Status.kOk else Status.kByteBudgetError),
       fr, neww)
    else (Status.kOk, fr, webp)

/-- Lines 273-284 of ExtraLossyEncode: every non-near-lossless frame's slope
    between its `final_quality` and quality 100 (which leaves its
    `config.quality` at 100, see `computeSlope`), collected as
    (slope, index) pairs and sorted by ascending slope.  `insertionSort`
    models `std::sort` (tie order unspecified in C; no claim depends on
    it). -/
def buildEncodingOrder (c : Codec) (frames : List FrameData) :
    List FrameData × List (ℚ × Nat) :=
  let upd := updEach
    (fun i f =>
      if f.near_lossless then (f, none)
      else
        let sf := computeSlope c f f.final_quality 100
        (sf.2, some (sf.1, i)))
    frames (List.range frames.length)
  (upd.1, upd.2.insertionSort (fun x y => x.1 ≤ y.1))

/-- Lines 291-295: the smallest `final_quality + 1` over the remaining
    frames, starting from 100 (`num_remaining_frames` always equals the
    length of `encoding_order`: both shrink by one per outer round, so the
    loop ranges over the whole remaining order). -/
def minCandidate (frames : List FrameData) (order : List Nat) : Int :=
  order.foldl (fun m i => min m ((frames.getD i default).final_quality + 1)) 100

/-- The inner binary search of ExtraLossyEncode (lines 299-316): push every
    remaining frame's `config.quality` to `max(final_quality, mid)`,
    assemble, and commit the buffer (recording `mid` as the found
    `final_quality`) when it fits the budget. -/
def extraSearch (c : Codec) (B : Nat) (order : List Nat)
    (frames : List FrameData) (webp : WebPData) (minQ maxQ : Int)
    (finalQ : Int) : List FrameData × WebPData × Int :=
  if h : minQ ≤ maxQ then
    let mid := (minQ + maxQ).tdiv 2
    let fr := updAll
      (fun f => { f with config :=
        { f.config with quality := max f.final_quality mid } })
      frames order
    let neww := generateAnimationNoBudget fr
    if neww.size c ≤ B then
      extraSearch c B order fr neww (mid + 1) maxQ mid
    else
      extraSearch c B order fr webp minQ (mid - 1) finalQ
  else (frames, webp, finalQ)
termination_by (maxQ + 1 - minQ).toNat
decreasing_by
  all_goals
    have hb := tdiv2_between minQ maxQ h
    omega

/-- Lines 318-327: commit the found quality to every remaining frame whose
    `final_quality` lies below it, refreshing its cached size and PSNR. -/
def extraCommit (c : Codec) (order : List Nat) (finalQ : Int)
    (frames : List FrameData) : List FrameData :=
  updAll
    (fun f =>
      if f.final_quality < finalQ then
        let st := c.stats f.pid finalQ
        { f with config := { f.config with quality := finalQ },
                 final_quality := finalQ, encoded_size := st.1,
                 final_psnr := st.2 }
      else f)
    frames order

/-- The outer loop of ExtraLossyEncode (lines 290-334): one round per
    remaining frame, erasing the lowest-slope entry after each committing
    round and stopping at the first round that finds no quality. -/
def extraLoop (c : Codec) (B : Nat) :
    List Nat → List FrameData → WebPData → List FrameData × WebPData
  | [], frames, webp => (frames, webp)
  | i :: rest, frames, webp =>
    let minQ := minCandidate frames (i :: rest)
    let res := extraSearch c B (i :: rest) frames webp minQ
      (min (minQ + 30) 100) (-1)
    if res.2.2 ≠ -1 then
      extraLoop c B rest (extraCommit c (i :: rest) res.2.2 res.1) res.2.1
    else (res.1, res.2.1)

/-- ExtraLossyEncode (lines 270-344). -/
def extraLossyEncode (c : Codec) (B : Nat) (frames : List FrameData)
    (webp : WebPData) : Status × List FrameData × WebPData :=
  let built := buildEncodingOrder c frames
  let lw := extraLoop c B (built.2.map Prod.snd) built.1 webp
  ((if 0 < lw.2.size c then Status.kOk else Status.kByteBudgetError),
   lw.1, lw.2)

/-- Modelled from the spec: `NearLosslessEqual` and
    `GenerateAnimationEqualQuality` are called by the pipeline driver
    (thumbnailer_slope_optim.cc lines 28 and 38) but are not among the
    provided sources; they are abstracted as pipeline-stage oracles mapping
    the frame state and current buffer to a status and new state (§4.6:
    such a stage commits a change only if the result still fits the budget
    and otherwise reverts to the latest lossy result). -/
abbrev PipelineStage :=
  Codec → List FrameData → WebPData → Status × List FrameData × WebPData

/-- The bounded refinement loop of GenerateAnimationSlopeOptim (lines
    42-48), fuel `KMaxIter = 5`: run LossyEncodeNoSlopeOptim, stop on error
    or as soon as the animation size repeats, else continue with the new
    size.  Besides the loop's result it returns the list of animation sizes
    observed after each execution of the pass, so theorems can speak about
    how often the pass ran. -/
def refineLoop (c : Codec) (B : Nat) (frames : List FrameData)
    (webp : WebPData) (curr : Nat) :
    Nat → Status × List FrameData × WebPData × List Nat
  | 0 => (Status.kOk, frames, webp, [])
  | fuel + 1 =>
    let r := lossyEncodeNoSlopeOptim c B frames webp
    if r.1 ≠ Status.kOk then (r.1, r.2.1, r.2.2, [r.2.2.size c])
    else if curr = r.2.2.size c then (Status.kOk, r.2.1, r.2.2, [r.2.2.size c])
    else
      let rl := refineLoop c B r.2.1 r.2.2 (r.2.2.size c) fuel
      (rl.1, rl.2.1, rl.2.2.1, r.2.2.size c :: rl.2.2.2)

/-- GenerateAnimationSlopeOptim (lines 19-52), the budgeted pipeline
    driver.  The `lossy_data` cache initialization (lines 21-25) has no
    observable effect here because the stats oracle is already pure (spec
    §4.1).  The last two components count how many times
    LossyEncodeNoSlopeOptim and ExtraLossyEncode were executed. -/
def generateAnimationSlopeOptim (c : Codec) (B minQ : Nat)
    (nle eqQ : PipelineStage) (frames : List FrameData) (webp : WebPData) :
    Status × List FrameData × WebPData × Nat × Nat :=
  let r1 := lossyEncodeSlopeOptim c B minQ frames webp
  if r1.1 ≠ Status.kOk then (r1.1, r1.2.1, r1.2.2, 0, 0)
  else
    let r2 := nle c r1.2.1 r1.2.2
    if r2.1 ≠ Status.kOk then (r2.1, r2.2.1, r2.2.2, 0, 0)
    else if (r2.2.1.filter (fun f => f.near_lossless)).length = 0 then
      let r3 := eqQ c r2.2.1 r2.2.2
      if r3.1 ≠ Status.kOk then (r3.1, r3.2.1, r3.2.2, 0, 0)
      else (Status.kOk, r3.2.1, r3.2.2, 0, 0)
    else
      let r4 := refineLoop c B r2.2.1 r2.2.2 (r2.2.2.size c) 5
      if r4.1 ≠ Status.kOk then (r4.1, r4.2.1, r4.2.2.1, r4.2.2.2.length, 0)
      else
        let r5 := extraLossyEncode c B r4.2.1 r4.2.2.1
        (r5.1, r5.2.1, r5.2.2, r4.2.2.2.length, 1)

/-! ### Generic lemmas about the indexed-update combinator -/

theorem getD_set_ne {l : List FrameData} {i j : Nat} (h : i ≠ j)
    (v d : FrameData) : (l.set i v).getD j d = l.getD j d := by
  simp [List.getD_eq_getElem?_getD, List.getElem?_set_ne h]

theorem getD_set_self {l : List FrameData} {i : Nat} (h : i < l.length)
    (v d : FrameData) : (l.set i v).getD i d = v := by
  simp [List.getD_eq_getElem?_getD, List.getElem?_set_self h]

theorem updEach_cons {β : Type} (G : Nat → FrameData → FrameData × Option β)
    (frames : List FrameData) (j : Nat) (js : List Nat) :
    updEach G frames (j :: js)
    = ((updEach G (frames.set j (G j (frames.getD j default)).1) js).1,
       (match (G j (frames.getD j default)).2 with
        | some b => [b]
        | none => [])
        ++ (updEach G (frames.set j (G j (frames.getD j default)).1) js).2) :=
  rfl

theorem updEach_length {β : Type} (G : Nat → FrameData → FrameData × Option β)
    (frames : List FrameData) (js : List Nat) :
    (updEach G frames js).1.length = frames.length := by
  induction js generalizing frames with
  | nil => simp [updEach]
  | cons j js ih => rw [updEach_cons]; simp [ih]

theorem updEach_getD_notMem {β : Type}
    (G : Nat → FrameData → FrameData × Option β)
    (frames : List FrameData) (js : List Nat) (i : Nat) (hi : i ∉ js) :
    (updEach G frames js).1.getD i default = frames.getD i default := by
  induction js generalizing frames with
  | nil => simp [updEach]
  | cons j js ih =>
    rw [updEach_cons]
    simp only [List.mem_cons, not_or] at hi
    rw [ih _ hi.2, getD_set_ne (fun hij => hi.1 hij.symm)]

theorem updEach_getD_mem {β : Type}
    (G : Nat → FrameData → FrameData × Option β)
    (frames : List FrameData) (js : List Nat) (i : Nat)
    (hnd : js.Nodup) (hmem : i ∈ js) (hlen : i < frames.length) :
    (updEach G frames js).1.getD i default
      = (G i (frames.getD i default)).1 := by
  induction js generalizing frames with
  | nil => simp at hmem
  | cons j js ih =>
    rw [updEach_cons]
    rcases List.mem_cons.mp hmem with rfl | hmem'
    · rw [updEach_getD_notMem _ _ _ _ (List.nodup_cons.mp hnd).1,
        getD_set_self hlen]
    · have hne : j ≠ i := fun hji => (List.nodup_cons.mp hnd).1 (hji ▸ hmem')
      rw [ih _ (List.nodup_cons.mp hnd).2 hmem'
          (by simpa using hlen), getD_set_ne hne]

theorem updEach_snd {β : Type} (G : Nat → FrameData → FrameData × Option β)
    (frames : List FrameData) (js : List Nat) (hnd : js.Nodup) :
    (updEach G frames js).2
      = js.filterMap (fun i => (G i (frames.getD i default)).2) := by
  induction js generalizing frames with
  | nil => simp [updEach]
  | cons j js ih =>
    rw [updEach_cons, List.filterMap_cons]
    have hrec := ih (frames.set j (G j (frames.getD j default)).1)
      (List.nodup_cons.mp hnd).2
    have hcongr :
        js.filterMap
            (fun i => (G i ((frames.set j
              (G j (frames.getD j default)).1).getD i default)).2)
        = js.filterMap (fun i => (G i (frames.getD i default)).2) := by
      apply List.filterMap_congr
      intro i hi
      have hne : j ≠ i :=
        fun hji => (List.nodup_cons.mp hnd).1 (hji ▸ hi)
      rw [getD_set_ne hne]
    rw [hrec, hcongr]
    rcases hg : (G j (frames.getD j default)).2 with _ | b <;> simp [hg]

theorem updAll_length (g : FrameData → FrameData) (frames : List FrameData)
    (js : List Nat) : (updAll g frames js).length = frames.length :=
  updEach_length _ _ _

theorem updAll_getD_notMem (g : FrameData → FrameData)
    (frames : List FrameData) (js : List Nat) (i : Nat) (hi : i ∉ js) :
    (updAll g frames js).getD i default = frames.getD i default :=
  updEach_getD_notMem _ _ _ _ hi

theorem updAll_getD_mem (g : FrameData → FrameData)
    (frames : List FrameData) (js : List Nat) (i : Nat)
    (hnd : js.Nodup) (hmem : i ∈ js) (hlen : i < frames.length) :
    (updAll g frames js).getD i default = g (frames.getD i default) :=
  updEach_getD_mem _ _ _ _ hnd hmem hlen

/-- A frame as `thumbnailer_utils.cc` sees it: a picture (identified by
    `pid`; the pixels are external) and a timestamp. -/
structure UFrame where
  pid : Nat
  timestamp : Int
deriving DecidableEq, Repr

instance : Inhabited UFrame := ⟨⟨0, 0⟩⟩

/-- UtilsStatus of thumbnailer_utils: success, decoder/memory failure, or
    the generic stats failure. -/
inductive UtilsStatus where
  | kOk
  | kMemoryError
  | kGenericError
deriving DecidableEq, Repr

/-- ThumbnailStatsPSNR: the per-frame PSNR values plus aggregates.  In C the
    aggregate fields are uninitialized until lines 97-101 run; the defaults
    stand in for that garbage and carry no meaning unless the status is
    `kOk`. -/
structure ThumbnailStatsPSNR where
  psnr : List ℚ
  min_psnr : ℚ := 0
  max_psnr : ℚ := 0
  mean_psnr : ℚ := 0
  median_psnr : ℚ := 0
deriving DecidableEq, Repr

/-- The decoded-pointer advance of AnimData2PSNR (lines 76-79): move to the
    next decoded frame only when its timestamp equals the current original
    frame's timestamp `t`. -/
def advIdx (newFrames : List UFrame) (idx : Nat) (t : Int) : Nat :=
  if idx + 1 < newFrames.length
      ∧ (newFrames.getD (idx + 1) default).timestamp = t
  then idx + 1 else idx

/-- The alignment-and-measurement loop of AnimData2PSNR
    (thumbnailer_utils.cc lines 70-89): walk the original frames; advance
    the decoded index only when the next decoded frame's timestamp equals
    the current original timestamp (lines 76-79); measure distortion, or
    break out on a distortion failure (`dist o n = none` models
    `WebPPictureDistortion` returning 0). -/
def psnrWalk (dist : Nat → Nat → Option ℚ) (newFrames : List UFrame) :
    List UFrame → Nat → List ℚ → List ℚ
  | [], _idx, acc => acc
  | o :: rest, idx, acc =>
    let idx' := advIdx newFrames idx o.timestamp
    match dist o.pid (newFrames.getD idx' default).pid with
    | none => acc
    | some p => psnrWalk dist newFrames rest idx' (acc ++ [p])

/-- AnimData2PSNR (lines 58-104).  The decode step `AnimData2Frames` drives
    the external decoder; its outcome is the `decoded` argument (`none` =
    decode failure, after which C returns its error without touching the
    stats; the distinction between the decoder's `kMemoryError` and
    `kGenericError` exits is collapsed into `kMemoryError`).  With a
    nonempty original list and an empty decoded list the C code reads
    `new_frames[0]` out of bounds (undefined behavior); theorems therefore
    assume a nonempty decode. -/
def animData2PSNR (dist : Nat → Nat → Option ℚ)
    (original_frames : List UFrame) (decoded : Option (List UFrame)) :
    UtilsStatus × ThumbnailStatsPSNR :=
  match decoded with
  | none => (UtilsStatus.kMemoryError, { psnr := [] })
  | some newFrames =>
    let ps := psnrWalk dist newFrames original_frames 0 []
    if ps.length ≠ original_frames.length then
      (UtilsStatus.kGenericError, { psnr := ps })
    else
      let sorted := ps.insertionSort (· ≤ ·)
      (UtilsStatus.kOk,
        { psnr := ps,
          min_psnr := sorted.headD 0,
          max_psnr := sorted.getLastD 0,
          mean_psnr := sorted.sum / (original_frames.length : ℚ),
          median_psnr := sorted.getD (original_frames.length / 2) 0 })

/-! ### C9: LossyEncodeNoSlopeOptim is a no-op when already over budget -/

/-- C9: if on entry to LossyEncodeNoSlopeOptim the current animation size
    exceeds byte_budget, the pass returns kOk and changes nothing — the
    buffer and every frame field are exactly as they were. -/
theorem c9_overbudget_is_noop (c : Codec) (B : Nat)
    (frames : List FrameData) (webp : WebPData)
    (h : getAnimationSize c webp > (B : Int)) :
    lossyEncodeNoSlopeOptim c B frames webp = (Status.kOk, frames, webp) := by
  simp [lossyEncodeNoSlopeOptim, h]

/-- Witness for C9 at a concrete over-budget input. -/
theorem c9_overbudget_is_noop_witness :
    getAnimationSize ⟨fun _ _ => (0, 0), fun _ => 5⟩ (.data []) > ((1 : Nat) : Int)
    ∧ lossyEncodeNoSlopeOptim ⟨fun _ _ => (0, 0), fun _ => 5⟩ 1 [] (.data [])
        = (Status.kOk, [], .data []) :=
  ⟨by norm_num [getAnimationSize, WebPData.size],
   c9_overbudget_is_noop _ _ _ _ (by norm_num [getAnimationSize, WebPData.size])⟩

/-! ### C10: the end-of-scan revert restores the buffer, not the frames -/

/-- C10: when the animation reassembled at the end of
    LossyEncodeNoSlopeOptim's scan exceeds byte_budget, the pass discards
    the new buffer and returns kOk with webp_data unchanged, while the
    per-frame final_quality, final_psnr and encoded_size accepted during the
    scan are retained (restoreConfigs touches only the config field). -/
theorem c10_revert_keeps_scan_state (c : Codec) (B : Nat)
    (frames : List FrameData) (webp : WebPData)
    (hentry : ¬ getAnimationSize c webp > (B : Int))
    (hover : B <
      (generateAnimationNoBudget (restoreConfigs
        (scanNoSlope c B frames (frames.length : Int)
          (getAnimationSize c webp)).1)).size c) :
    lossyEncodeNoSlopeOptim c B frames webp
      = (Status.kOk,
         restoreConfigs (scanNoSlope c B frames (frames.length : Int)
           (getAnimationSize c webp)).1,
         webp)
    ∧ (restoreConfigs (scanNoSlope c B frames (frames.length : Int)
           (getAnimationSize c webp)).1).map
          (fun f => (f.final_quality, f.final_psnr, f.encoded_size))
        = ((scanNoSlope c B frames (frames.length : Int)
           (getAnimationSize c webp)).1).map
          (fun f => (f.final_quality, f.final_psnr, f.encoded_size)) := by
  constructor
  · simp only [lossyEncodeNoSlopeOptim]
    rw [if_neg hentry, if_neg (by omega)]
  · simp [restoreConfigs]

/-- A codec whose assembler gives any nonempty payload size 10. -/
def cW10 : Codec := ⟨fun _ _ => (0, 0), fun l => if l = [] then 0 else 10⟩

/-- A frame whose final_quality of 101 empties the refinement search window
    (the floor 101 exceeds the ceiling min(131, 100)). -/
def fW10 : FrameData :=
  { pid := 0, timestamp_ms := 0, config := ⟨101, false⟩, encoded_size := 3,
    final_quality := 101, final_psnr := 99, near_lossless := false }

/-- Witness for C10: the empty entry buffer fits the budget 5 but the
    reassembled single-frame animation has size 10, so the buffer is
    reverted and the pass returns kOk. -/
theorem c10_revert_keeps_scan_state_witness :
    (¬ getAnimationSize cW10 .empty > ((5 : Nat) : Int))
    ∧ (lossyEncodeNoSlopeOptim cW10 5 [fW10] .empty).1 = Status.kOk := by
  refine ⟨by norm_num [getAnimationSize, WebPData.size, cW10], ?_⟩
  have h := c10_revert_keeps_scan_state cW10 5 [fW10] .empty
    (by norm_num [getAnimationSize, WebPData.size, cW10])
    (by
      rw [scanNoSlope, scanNoSlope, frameSearchNoSlope, fsLoop]
      norm_num [cW10, fW10, getAnimationSize, WebPData.size,
        generateAnimationNoBudget, restoreConfigs, framesPayload])
  rw [h.1]

/-! ### C5: the active set of the slope-optimized binary search -/

/-- C5: in one iteration of LossyEncodeSlopeOptim's binary search, a listed
    frame is kept in the next active list (and its quality pushed to the
    midpoint) iff its final_quality is unset (-1) or its local slope between
    the current bounds exceeds limit_slope; the next list is a subset of the
    current one. -/
theorem c5_active_set_characterization (c : Codec) (limit : RDSlope)
    (lo hi mid : Nat) (frames : List FrameData) (optimList : List Nat)
    (hnd : optimList.Nodup) :
    (∀ i, i ∈ (slopeStep c limit lo hi mid frames optimList).2
       ↔ (i ∈ optimList
          ∧ ((frames.getD i default).final_quality = -1
             ∨ gtLimit (computeSlope c (frames.getD i default) (lo : Int)
                 (((hi - 1 : Nat) : Int))).1 limit = true)))
    ∧ (slopeStep c limit lo hi mid frames optimList).2 ⊆ optimList
    ∧ (∀ i ∈ (slopeStep c limit lo hi mid frames optimList).2,
        i < frames.length →
        ((slopeStep c limit lo hi mid frames optimList).1.getD i
            default).config.quality = (mid : Int)) := by
  have hsnd := updEach_snd
    (fun i f =>
      let sf := computeSlope c f (lo : Int) (((hi - 1 : Nat) : Int))
      if sf.2.final_quality = -1 ∨ gtLimit sf.1 limit then
        ({ sf.2 with config := { sf.2.config with quality := (mid : Int) } },
         some i)
      else (sf.2, none))
    frames optimList hnd
  have hmem : ∀ i, i ∈ (slopeStep c limit lo hi mid frames optimList).2
      ↔ (i ∈ optimList
         ∧ ((frames.getD i default).final_quality = -1
            ∨ gtLimit (computeSlope c (frames.getD i default) (lo : Int)
                (((hi - 1 : Nat) : Int))).1 limit = true)) := by
    intro i
    rw [slopeStep, hsnd, List.mem_filterMap]
    constructor
    · rintro ⟨a, ha, hfa⟩
      simp only at hfa
      split at hfa
      · rename_i hcond
        obtain rfl : a = i := by simpa using hfa
        exact ⟨ha, by simpa [computeSlope] using hcond⟩
      · simp at hfa
    · rintro ⟨ha, hc⟩
      refine ⟨i, ha, ?_⟩
      simp only
      split
      · rfl
      · rename_i hno
        exact absurd (by simpa [computeSlope] using hc) hno
  refine ⟨hmem, fun i him => ((hmem i).mp him).1, fun i him hlen => ?_⟩
  have hc := (hmem i).mp him
  rw [slopeStep, updEach_getD_mem _ _ _ _ hnd hc.1 hlen]
  simp only
  split
  · rfl
  · rename_i hno
    exact absurd (by simpa [computeSlope] using hc.2) hno

/-- A flat codec used by concrete instances: every quality encodes to size 1
    with PSNR 0. -/
def cFlat : Codec := ⟨fun _ _ => (1, 0), fun _ => 0⟩

/-- Two concrete frames: the first with final_quality unset, the second
    already set to 3. -/
def framesW5 : List FrameData :=
  [{ pid := 0, timestamp_ms := 0, config := ⟨0, false⟩, encoded_size := 0,
     final_quality := -1, final_psnr := 0, near_lossless := false },
   { pid := 1, timestamp_ms := 0, config := ⟨0, false⟩, encoded_size := 0,
     final_quality := 3, final_psnr := 0, near_lossless := false }]

/-- Witness for C5: two frames, the first unset (kept), the second set with
    a flat slope against an infinite limit (dropped). -/
theorem c5_active_set_characterization_witness :
    ([0, 1] : List Nat).Nodup
    ∧ ((∀ i, i ∈ (slopeStep cFlat RDSlope.undef 0 101 50 framesW5 [0, 1]).2
         ↔ (i ∈ ([0, 1] : List Nat)
            ∧ ((framesW5.getD i default).final_quality = -1
               ∨ gtLimit (computeSlope cFlat (framesW5.getD i default)
                   ((0 : Nat) : Int) (((101 - 1 : Nat) : Int))).1
                   RDSlope.undef = true)))
       ∧ (slopeStep cFlat RDSlope.undef 0 101 50 framesW5 [0, 1]).2
           ⊆ [0, 1]
       ∧ (∀ i ∈ (slopeStep cFlat RDSlope.undef 0 101 50 framesW5 [0, 1]).2,
           i < framesW5.length →
           ((slopeStep cFlat RDSlope.undef 0 101 50 framesW5
               [0, 1]).1.getD i default).config.quality
             = ((50 : Nat) : Int))) :=
  ⟨by decide,
   c5_active_set_characterization cFlat RDSlope.undef 0 101 50 framesW5
     [0, 1] (by decide)⟩

/-! ### C7: slope well-definedness under equal sizes -/

/-- ComputeSlope's guard: equal encoded sizes give slope 0 (line 111). -/
theorem computeSlope_equal_sizes (c : Codec) (f : FrameData)
    (lo hi : Int) (h : (c.stats f.pid hi).1 = (c.stats f.pid lo).1) :
    (computeSlope c f lo hi).1 = 0 := by
  simp [computeSlope, h]

/-- Every boundary recorded by FindMedianSlope's binary search is exactly
    the unguarded float division of line 80 at the recorded quality. -/
theorem fmsSearch_acc_shape (c : Codec) (pid : Nat) (size100 : Int)
    (psnr100 : ℚ) (lo hi : Nat) (acc : Option (Nat × RDSlope))
    (hacc : ∀ q s, acc = some (q, s) →
      s = fdiv (psnr100 - (c.stats pid (q : Int)).2)
        ((size100 : ℚ) - ((c.stats pid (q : Int)).1 : ℚ))) :
    ∀ q s, fmsSearch c pid size100 psnr100 lo hi acc = some (q, s) →
      s = fdiv (psnr100 - (c.stats pid (q : Int)).2)
        ((size100 : ℚ) - ((c.stats pid (q : Int)).1 : ℚ)) := by
  induction lo, hi, acc using fmsSearch.induct c pid size100 psnr100 with
  | case1 lo hi acc hlt mid st hle ih =>
    intro q s hq
    rw [fmsSearch, if_pos hlt, if_pos hle] at hq
    exact ih (fun q' s' h' => by
      injection h' with h''
      obtain ⟨rfl, rfl⟩ := Prod.mk.injEq .. ▸ (Prod.ext_iff.mp h'')
      rfl) q s hq
  | case2 lo hi acc hlt mid st hle ih =>
    intro q s hq
    rw [fmsSearch, if_pos hlt, if_neg hle] at hq
    exact ih hacc q s hq
  | case3 lo hi acc hlt =>
    intro q s hq
    rw [fmsSearch, if_neg hlt] at hq
    exact hacc q s hq

/-- C7 amended: ComputeSlope defines the slope as 0 when the two encoded
    sizes are equal, but the slope tracked at the boundary inside
    FindMedianSlope is an unguarded division: whenever the boundary size
    equals the size at quality 100 the recorded value is the undefined
    (infinite/NaN) float, not 0. -/
theorem c7_amended_slope_zero_guard (c : Codec) (f : FrameData)
    (lo hi : Int) (pid q : Nat) (s : RDSlope)
    (hsz : (c.stats f.pid hi).1 = (c.stats f.pid lo).1)
    (hfind : findFrameSlope c pid = some (q, s)) :
    (computeSlope c f lo hi).1 = 0
    ∧ s = fdiv ((c.stats pid 100).2 - (c.stats pid (q : Int)).2)
        (((c.stats pid 100).1 : ℚ) - ((c.stats pid (q : Int)).1 : ℚ))
    ∧ ((c.stats pid (q : Int)).1 = (c.stats pid 100).1 → s = RDSlope.undef) := by
  have hshape := fmsSearch_acc_shape c pid (c.stats pid 100).1
    (c.stats pid 100).2 0 101 none (by intro q s h; cases h) q s hfind
  refine ⟨computeSlope_equal_sizes c f lo hi hsz, hshape, fun heq => ?_⟩
  rw [hshape, heq]
  simp [fdiv]

/-- Witness for C7's amended statement: a constant codec, where the
    boundary lands at quality 0 with equal sizes and the recorded slope is
    the undefined division. -/
theorem c7_amended_slope_zero_guard_witness :
    ((⟨fun _ _ => (7, 50), fun _ => 10⟩ : Codec).stats 0 1).1
      = ((⟨fun _ _ => (7, 50), fun _ => 10⟩ : Codec).stats 0 0).1
    ∧ findFrameSlope ⟨fun _ _ => (7, 50), fun _ => 10⟩ 0
        = some (0, RDSlope.undef)
    ∧ ((computeSlope ⟨fun _ _ => (7, 50), fun _ => 10⟩ default 0 1).1 = 0
       ∧ RDSlope.undef
           = fdiv (((⟨fun _ _ => (7, 50), fun _ => 10⟩ : Codec).stats 0 100).2
               - ((⟨fun _ _ => (7, 50), fun _ => 10⟩ : Codec).stats 0 ((0 : Nat) : Int)).2)
             ((((⟨fun _ _ => (7, 50), fun _ => 10⟩ : Codec).stats 0 100).1 : ℚ)
               - (((⟨fun _ _ => (7, 50), fun _ => 10⟩ : Codec).stats 0 ((0 : Nat) : Int)).1 : ℚ))
       ∧ (((⟨fun _ _ => (7, 50), fun _ => 10⟩ : Codec).stats 0 ((0 : Nat) : Int)).1
             = ((⟨fun _ _ => (7, 50), fun _ => 10⟩ : Codec).stats 0 100).1
           → RDSlope.undef = RDSlope.undef)) := by
  have hfind : findFrameSlope ⟨fun _ _ => (7, 50), fun _ => 10⟩ 0
      = some (0, RDSlope.undef) := by
    simp [findFrameSlope, fmsSearch, fdiv]
  exact ⟨rfl, hfind,
    c7_amended_slope_zero_guard ⟨fun _ _ => (7, 50), fun _ => 10⟩ default
      0 1 0 0 RDSlope.undef rfl hfind⟩

/-- C7 as stated is false: inside FindMedianSlope the boundary slope of a
    frame whose encoded sizes are all equal is recorded as the undefined
    division (C: ±inf/NaN), not as 0. -/
theorem c7_counterexample :
    findFrameSlope ⟨fun _ _ => (7, 50), fun _ => 10⟩ 0
      = some (0, RDSlope.undef)
    ∧ RDSlope.undef ≠ RDSlope.val 0 := by
  constructor
  · simp [findFrameSlope, fmsSearch, fdiv]
  · intro h
    cases h

end Libwebp

namespace Libwebp

theorem fsLoop_eq_stop (c : Codec) (B : Nat) (rem minQ maxQ : Int)
    (f : FrameData) (anim : Int) (h : ¬ minQ ≤ maxQ) :
    fsLoop c B rem minQ maxQ f anim = (f, anim) := by
  rw [fsLoop, dif_neg h]

theorem fsLoop_eq_accept (c : Codec) (B : Nat) (rem minQ maxQ : Int)
    (f : FrameData) (anim : Int) (h : minQ ≤ maxQ)
    (hacc : (c.stats f.pid ((minQ + maxQ).tdiv 2)).2 > f.final_psnr
      ∨ ((c.stats f.pid ((minQ + maxQ).tdiv 2)).2 = f.final_psnr
         ∧ (c.stats f.pid ((minQ + maxQ).tdiv 2)).1 ≤ f.encoded_size))
    (hbud : (c.stats f.pid ((minQ + maxQ).tdiv 2)).1 - f.encoded_size
      ≤ ((B : Int) - anim).tdiv rem) :
    fsLoop c B rem minQ maxQ f anim
      = fsLoop c B rem ((minQ + maxQ).tdiv 2 + 1) maxQ
          { f with
            config := { f.config with quality := (minQ + maxQ).tdiv 2 },
            encoded_size := (c.stats f.pid ((minQ + maxQ).tdiv 2)).1,
            final_psnr := (c.stats f.pid ((minQ + maxQ).tdiv 2)).2,
            final_quality := (minQ + maxQ).tdiv 2,
            near_lossless := false }
          (anim - f.encoded_size + (c.stats f.pid ((minQ + maxQ).tdiv 2)).1) := by
  rw [fsLoop, dif_pos h]
  simp only [if_pos hacc, if_pos hbud]

theorem fsLoop_eq_reject (c : Codec) (B : Nat) (rem minQ maxQ : Int)
    (f : FrameData) (anim : Int) (h : minQ ≤ maxQ)
    (hacc : (c.stats f.pid ((minQ + maxQ).tdiv 2)).2 > f.final_psnr
      ∨ ((c.stats f.pid ((minQ + maxQ).tdiv 2)).2 = f.final_psnr
         ∧ (c.stats f.pid ((minQ + maxQ).tdiv 2)).1 ≤ f.encoded_size))
    (hbud : ¬ ((c.stats f.pid ((minQ + maxQ).tdiv 2)).1 - f.encoded_size
      ≤ ((B : Int) - anim).tdiv rem)) :
    fsLoop c B rem minQ maxQ f anim
      = fsLoop c B rem minQ ((minQ + maxQ).tdiv 2 - 1)
          { f with config := { f.config with quality := (minQ + maxQ).tdiv 2 } }
          anim := by
  rw [fsLoop, dif_pos h]
  simp only [if_pos hacc, if_neg hbud]

theorem fsLoop_eq_next (c : Codec) (B : Nat) (rem minQ maxQ : Int)
    (f : FrameData) (anim : Int) (h : minQ ≤ maxQ)
    (hacc : ¬ ((c.stats f.pid ((minQ + maxQ).tdiv 2)).2 > f.final_psnr
      ∨ ((c.stats f.pid ((minQ + maxQ).tdiv 2)).2 = f.final_psnr
         ∧ (c.stats f.pid ((minQ + maxQ).tdiv 2)).1 ≤ f.encoded_size))) :
    fsLoop c B rem minQ maxQ f anim
      = fsLoop c B rem ((minQ + maxQ).tdiv 2 + 1) maxQ
          { f with config := { f.config with quality := (minQ + maxQ).tdiv 2 } }
          anim := by
  rw [fsLoop, dif_pos h]
  simp only [if_neg hacc]

theorem fsLoop_spec (c : Codec) (B : Nat) (rem minQ maxQ : Int)
    (f : FrameData) (anim : Int) :
    ((fsLoop c B rem minQ maxQ f anim).1.final_psnr > f.final_psnr
      ∨ ((fsLoop c B rem minQ maxQ f anim).1.final_psnr = f.final_psnr
         ∧ (fsLoop c B rem minQ maxQ f anim).1.encoded_size ≤ f.encoded_size))
    ∧ (fsLoop c B rem minQ maxQ f anim).2
        = anim - f.encoded_size + (fsLoop c B rem minQ maxQ f anim).1.encoded_size
    ∧ ((fsLoop c B rem minQ maxQ f anim).1.final_quality = f.final_quality
       ∨ (minQ ≤ (fsLoop c B rem minQ maxQ f anim).1.final_quality
          ∧ (fsLoop c B rem minQ maxQ f anim).1.final_quality ≤ maxQ))
    ∧ (fsLoop c B rem minQ maxQ f anim).1.pid = f.pid
    ∧ (fsLoop c B rem minQ maxQ f anim).1.timestamp_ms = f.timestamp_ms := by
  by_cases h : minQ ≤ maxQ
  · have hmid := tdiv2_between minQ maxQ h
    by_cases hacc : (c.stats f.pid ((minQ + maxQ).tdiv 2)).2 > f.final_psnr
      ∨ ((c.stats f.pid ((minQ + maxQ).tdiv 2)).2 = f.final_psnr
         ∧ (c.stats f.pid ((minQ + maxQ).tdiv 2)).1 ≤ f.encoded_size)
    · by_cases hbud : (c.stats f.pid ((minQ + maxQ).tdiv 2)).1 - f.encoded_size
        ≤ ((B : Int) - anim).tdiv rem
      · rw [fsLoop_eq_accept c B rem minQ maxQ f anim h hacc hbud]
        dsimp only
        have ih := fsLoop_spec c B rem ((minQ + maxQ).tdiv 2 + 1) maxQ
          { f with
            config := { f.config with quality := (minQ + maxQ).tdiv 2 },
            encoded_size := (c.stats f.pid ((minQ + maxQ).tdiv 2)).1,
            final_psnr := (c.stats f.pid ((minQ + maxQ).tdiv 2)).2,
            final_quality := (minQ + maxQ).tdiv 2,
            near_lossless := false }
          (anim - f.encoded_size + (c.stats f.pid ((minQ + maxQ).tdiv 2)).1)
        obtain ⟨ih1, ih2, ih3, ih4, ih5⟩ := ih
        dsimp only at ih1 ih2 ih3 ih4 ih5
        refine ⟨?_, by rw [ih2]; ring_nf, ?_, ih4, ih5⟩
        · rcases ih1 with h1 | ⟨h1, h2⟩
          · rcases hacc with ha | ⟨ha, hb⟩
            · exact Or.inl (by linarith)
            · exact Or.inl (by linarith)
          · rcases hacc with ha | ⟨ha, hb⟩
            · exact Or.inl (by linarith)
            · exact Or.inr ⟨by linarith, by omega⟩
        · rcases ih3 with h1 | ⟨h1, h2⟩
          · exact Or.inr ⟨by omega, by omega⟩
          · exact Or.inr ⟨by omega, by omega⟩
      · rw [fsLoop_eq_reject c B rem minQ maxQ f anim h hacc hbud]
        dsimp only
        have ih := fsLoop_spec c B rem minQ ((minQ + maxQ).tdiv 2 - 1)
          { f with config := { f.config with quality := (minQ + maxQ).tdiv 2 } }
          anim
        obtain ⟨ih1, ih2, ih3, ih4, ih5⟩ := ih
        dsimp only at ih1 ih2 ih3 ih4 ih5
        refine ⟨ih1, ih2, ?_, ih4, ih5⟩
        rcases ih3 with h1 | ⟨h1, h2⟩
        · exact Or.inl h1
        · exact Or.inr ⟨h1, by omega⟩
    · rw [fsLoop_eq_next c B rem minQ maxQ f anim h hacc]
      dsimp only
      have ih := fsLoop_spec c B rem ((minQ + maxQ).tdiv 2 + 1) maxQ
        { f with config := { f.config with quality := (minQ + maxQ).tdiv 2 } }
        anim
      obtain ⟨ih1, ih2, ih3, ih4, ih5⟩ := ih
      dsimp only at ih1 ih2 ih3 ih4 ih5
      refine ⟨ih1, ih2, ?_, ih4, ih5⟩
      rcases ih3 with h1 | ⟨h1, h2⟩
      · exact Or.inl h1
      · exact Or.inr ⟨by omega, h2⟩
  · rw [fsLoop_eq_stop c B rem minQ maxQ f anim h]
    exact ⟨Or.inr ⟨rfl, le_refl _⟩, by ring, Or.inl rfl, rfl, rfl⟩
termination_by (maxQ + 1 - minQ).toNat
decreasing_by
  all_goals omega

theorem fsLoop_le_budget (c : Codec) (B : Nat) (rem minQ maxQ : Int)
    (f : FrameData) (anim : Int) (ha : anim ≤ (B : Int)) (hr : 1 ≤ rem) :
    (fsLoop c B rem minQ maxQ f anim).2 ≤ (B : Int) := by
  by_cases h : minQ ≤ maxQ
  · have hmid := tdiv2_between minQ maxQ h
    by_cases hacc : (c.stats f.pid ((minQ + maxQ).tdiv 2)).2 > f.final_psnr
      ∨ ((c.stats f.pid ((minQ + maxQ).tdiv 2)).2 = f.final_psnr
         ∧ (c.stats f.pid ((minQ + maxQ).tdiv 2)).1 ≤ f.encoded_size)
    · by_cases hbud : (c.stats f.pid ((minQ + maxQ).tdiv 2)).1 - f.encoded_size
        ≤ ((B : Int) - anim).tdiv rem
      · rw [fsLoop_eq_accept c B rem minQ maxQ f anim h hacc hbud]
        have hdiv : ((B : Int) - anim).tdiv rem ≤ (B : Int) - anim := by
          rw [Int.tdiv_eq_ediv (by omega) (by omega)]
          exact Int.ediv_le_self _ (by omega)
        exact fsLoop_le_budget c B rem _ _ _ _ (by omega) hr
      · rw [fsLoop_eq_reject c B rem minQ maxQ f anim h hacc hbud]
        exact fsLoop_le_budget c B rem _ _ _ _ ha hr
    · rw [fsLoop_eq_next c B rem minQ maxQ f anim h hacc]
      exact fsLoop_le_budget c B rem _ _ _ _ ha hr
  · rw [fsLoop_eq_stop c B rem minQ maxQ f anim h]
    exact ha
termination_by (maxQ + 1 - minQ).toNat
decreasing_by
  all_goals omega

end Libwebp

namespace Libwebp

theorem getD_set_full (l : List FrameData) (j i : Nat) (v : FrameData) :
    (l.set j v).getD i default
      = if j = i ∧ j < l.length then v else l.getD i default := by
  by_cases h : j = i ∧ j < l.length
  · obtain ⟨rfl, hlen⟩ := h
    rw [if_pos ⟨rfl, hlen⟩, getD_set_self hlen]
  · rw [if_neg h]
    by_cases hij : j = i
    · subst hij
      have hlen : l.length ≤ j := by
        rcases not_and_or.mp h with h1 | h2
        · exact absurd rfl h1
        · omega
      simp [List.getD_eq_getElem?_getD, List.getElem?_set, hlen,
        Nat.not_lt.mpr hlen, List.getElem?_eq_none hlen]
    · exact getD_set_ne hij _ _

/-- Pointwise relational transport through `updAll`: if the update respects a
    reflexive transitive relation, so does the whole indexed fold, at every
    position. -/
theorem updAll_rel (g : FrameData → FrameData)
    (R : FrameData → FrameData → Prop) (hrefl : ∀ f, R f f)
    (htrans : ∀ a b c, R a b → R b c → R a c) (hg : ∀ f, R f (g f)) :
    ∀ (js : List Nat) (frames : List FrameData) (i : Nat),
    R (frames.getD i default) ((updAll g frames js).getD i default) := by
  intro js
  induction js with
  | nil => intro frames i; exact hrefl _
  | cons j js ih =>
    intro frames i
    have hstep : updAll g frames (j :: js)
        = updAll g (frames.set j (g (frames.getD j default))) js := rfl
    rw [hstep]
    refine htrans _ _ _ ?_ (ih (frames.set j (g (frames.getD j default))) i)
    rw [getD_set_full]
    by_cases h : j = i ∧ j < frames.length
    · rw [if_pos h]
      exact h.1 ▸ hg _
    · rw [if_neg h]
      exact hrefl _

/-- Pointwise field preservation through `updEach`. -/
theorem updEach_rel {β : Type} (G : Nat → FrameData → FrameData × Option β)
    (R : FrameData → FrameData → Prop) (hrefl : ∀ f, R f f)
    (htrans : ∀ a b c, R a b → R b c → R a c)
    (hG : ∀ j f, R f (G j f).1) :
    ∀ (js : List Nat) (frames : List FrameData) (i : Nat),
    R (frames.getD i default) ((updEach G frames js).1.getD i default) := by
  intro js
  induction js with
  | nil => intro frames i; exact hrefl _
  | cons j js ih =>
    intro frames i
    rw [updEach_cons]
    refine htrans _ _ _ ?_
      (ih (frames.set j (G j (frames.getD j default)).1) i)
    rw [getD_set_full]
    by_cases h : j = i ∧ j < frames.length
    · rw [if_pos h]
      exact h.1 ▸ hG _ _
    · rw [if_neg h]
      exact hrefl _

theorem nodup_filterMap_guard (p : Nat → Prop) [DecidablePred p]
    (js : List Nat) (hnd : js.Nodup) :
    (js.filterMap (fun i => if p i then some i else none)).Nodup := by
  induction js with
  | nil => simp
  | cons j js ih =>
    rw [List.filterMap_cons]
    have hnd' := (List.nodup_cons.mp hnd).2
    have hj := (List.nodup_cons.mp hnd).1
    by_cases hp : p j
    · rw [if_pos hp]
      refine List.nodup_cons.mpr ⟨?_, ih hnd'⟩
      intro hmem
      obtain ⟨a, ha, hfa⟩ := List.mem_filterMap.mp hmem
      by_cases hpa : p a
      · rw [if_pos hpa] at hfa
        exact hj (Option.some.inj hfa ▸ ha)
      · rw [if_neg hpa] at hfa
        cases hfa
    · rw [if_neg hp]
      exact ih hnd'

theorem filterMap_guard_eq_self (p : Nat → Prop) [DecidablePred p]
    (js : List Nat) (hall : ∀ i ∈ js, p i) :
    js.filterMap (fun i => if p i then some i else none) = js := by
  induction js with
  | nil => simp
  | cons j js ih =>
    rw [List.filterMap_cons, if_pos (hall j (List.mem_cons_self j js)),
      ih (fun i hi => hall i (List.mem_cons_of_mem j hi))]

end Libwebp

namespace Libwebp

/-- The spec of one frame's refinement search, transported from the inner
    loop to the entry state (floor 70 for a lossless config, the frame's
    final_quality otherwise; ceiling capped at min(floor + 30, 100)). -/
theorem frameSearchNoSlope_spec (c : Codec) (B : Nat) (rem : Int)
    (f : FrameData) (anim : Int) :
    ((frameSearchNoSlope c B rem f anim).1.final_psnr > f.final_psnr
      ∨ ((frameSearchNoSlope c B rem f anim).1.final_psnr = f.final_psnr
         ∧ (frameSearchNoSlope c B rem f anim).1.encoded_size
             ≤ f.encoded_size))
    ∧ (frameSearchNoSlope c B rem f anim).2
        = anim - f.encoded_size
            + (frameSearchNoSlope c B rem f anim).1.encoded_size
    ∧ ((frameSearchNoSlope c B rem f anim).1.final_quality = f.final_quality
       ∨ ((if f.config.lossless then (70 : Int) else f.final_quality)
            ≤ (frameSearchNoSlope c B rem f anim).1.final_quality
          ∧ (frameSearchNoSlope c B rem f anim).1.final_quality
            ≤ min ((if f.config.lossless then (70 : Int)
                else f.final_quality) + 30) 100))
    ∧ (frameSearchNoSlope c B rem f anim).1.pid = f.pid
    ∧ (frameSearchNoSlope c B rem f anim).1.timestamp_ms = f.timestamp_ms := by
  have h := fsLoop_spec c B rem
    (if f.config.lossless then (70 : Int) else f.final_quality)
    (min ((if f.config.lossless then (70 : Int) else f.final_quality) + 30)
      100)
    { f with config := { f.config with lossless := false } } anim
  dsimp only at h
  exact h

theorem frameSearchNoSlope_le_budget (c : Codec) (B : Nat) (rem : Int)
    (f : FrameData) (anim : Int) (ha : anim ≤ (B : Int)) (hr : 1 ≤ rem) :
    (frameSearchNoSlope c B rem f anim).2 ≤ (B : Int) :=
  fsLoop_le_budget c B rem _ _ _ _ ha hr

/-- The scanned animation size never exceeds the budget when it started
    under it and the remaining-frames counter dominates the frame count. -/
theorem scanNoSlope_le_budget (c : Codec) (B : Nat) :
    ∀ (frames : List FrameData) (rem anim : Int),
    anim ≤ (B : Int) → (frames.length : Int) ≤ rem →
    (scanNoSlope c B frames rem anim).2 ≤ (B : Int) := by
  intro frames
  induction frames with
  | nil => intro rem anim ha _; exact ha
  | cons f rest ih =>
    intro rem anim ha hr
    have h1 := frameSearchNoSlope_le_budget c B rem f anim ha
      (by simp at hr; omega)
    exact ih (rem - 1) _ h1 (by simp at hr ⊢; omega)

/-- Per-index monotonicity of the scan: PSNR never decreases, and the
    final_quality of a frame whose config is not lossless never
    decreases. -/
theorem scanNoSlope_pointwise (c : Codec) (B : Nat) :
    ∀ (frames : List FrameData) (rem anim : Int) (i : Nat),
    i < frames.length →
    ((frames.getD i default).final_psnr
        ≤ ((scanNoSlope c B frames rem anim).1.getD i default).final_psnr)
    ∧ (¬ (frames.getD i default).config.lossless = true →
       (frames.getD i default).final_quality
         ≤ ((scanNoSlope c B frames rem anim).1.getD i default).final_quality) := by
  intro frames
  induction frames with
  | nil => intro rem anim i hi; simp at hi
  | cons f rest ih =>
    intro rem anim i hi
    obtain ⟨h1, h2, h3, _, _⟩ := frameSearchNoSlope_spec c B rem f anim
    have hscan : (scanNoSlope c B (f :: rest) rem anim).1
        = (frameSearchNoSlope c B rem f anim).1
            :: (scanNoSlope c B rest (rem - 1)
                 (frameSearchNoSlope c B rem f anim).2).1 := rfl
    rw [hscan]
    cases i with
    | zero =>
      simp only [List.getD_cons_zero]
      constructor
      · rcases h1 with h | ⟨h, _⟩
        · exact le_of_lt h
        · exact le_of_eq h.symm
      · intro hl
        rcases h3 with h | ⟨h, _⟩
        · omega
        · rw [if_neg (by simp [hl])] at h
          omega
    | succ i =>
      simp only [List.getD_cons_succ]
      exact ih (rem - 1) _ i (by simpa using hi)

end Libwebp

namespace Libwebp

/-! ### C6: the refinement pass's upward quality search -/

/-- C6: in LossyEncodeNoSlopeOptim's scan, each frame's quality search runs
    upward from its current final_quality (70 when its config is lossless),
    capped at start+30 and at 100: the resulting final_quality is either
    untouched or lies in that window; a result differing from the entry
    state improves PSNR strictly or matches it with no larger size; the
    running animation size is updated by exactly the accepted size delta,
    and (because each accepted delta fits the per-remaining-frame share of
    the slack) never exceeds the budget when it started under it; the scan
    hands each frame's updated animation size to the frames after it. -/
theorem c6_refine_search_contract (c : Codec) (B : Nat) (rem : Int)
    (f : FrameData) (anim : Int) :
    ((frameSearchNoSlope c B rem f anim).1.final_quality = f.final_quality
      ∨ ((if f.config.lossless then (70 : Int) else f.final_quality)
           ≤ (frameSearchNoSlope c B rem f anim).1.final_quality
         ∧ (frameSearchNoSlope c B rem f anim).1.final_quality
           ≤ min ((if f.config.lossless then (70 : Int)
               else f.final_quality) + 30) 100))
    ∧ ((frameSearchNoSlope c B rem f anim).1.final_psnr > f.final_psnr
       ∨ ((frameSearchNoSlope c B rem f anim).1.final_psnr = f.final_psnr
          ∧ (frameSearchNoSlope c B rem f anim).1.encoded_size
              ≤ f.encoded_size))
    ∧ (frameSearchNoSlope c B rem f anim).2
        = anim - f.encoded_size
            + (frameSearchNoSlope c B rem f anim).1.encoded_size
    ∧ (anim ≤ (B : Int) → 1 ≤ rem →
        (frameSearchNoSlope c B rem f anim).2 ≤ (B : Int))
    ∧ (∀ (rest : List FrameData) (anim2 : Int),
        scanNoSlope c B (f :: rest) rem anim2
          = ((frameSearchNoSlope c B rem f anim2).1
               :: (scanNoSlope c B rest (rem - 1)
                    (frameSearchNoSlope c B rem f anim2).2).1,
             (scanNoSlope c B rest (rem - 1)
               (frameSearchNoSlope c B rem f anim2).2).2)) := by
  obtain ⟨h1, h2, h3, _, _⟩ := frameSearchNoSlope_spec c B rem f anim
  exact ⟨h3, h1, h2,
    fun ha hr => frameSearchNoSlope_le_budget c B rem f anim ha hr,
    fun rest anim2 => rfl⟩

/-- Witness for C6, applied to a concrete frame and flat codec. -/
theorem c6_refine_search_contract_witness :
    ((frameSearchNoSlope cFlat 10 1 default 0).1.final_quality
        = (default : FrameData).final_quality
      ∨ ((if (default : FrameData).config.lossless then (70 : Int)
            else (default : FrameData).final_quality)
           ≤ (frameSearchNoSlope cFlat 10 1 default 0).1.final_quality
         ∧ (frameSearchNoSlope cFlat 10 1 default 0).1.final_quality
           ≤ min ((if (default : FrameData).config.lossless then (70 : Int)
               else (default : FrameData).final_quality) + 30) 100))
    ∧ ((frameSearchNoSlope cFlat 10 1 default 0).1.final_psnr
          > (default : FrameData).final_psnr
       ∨ ((frameSearchNoSlope cFlat 10 1 default 0).1.final_psnr
            = (default : FrameData).final_psnr
          ∧ (frameSearchNoSlope cFlat 10 1 default 0).1.encoded_size
              ≤ (default : FrameData).encoded_size))
    ∧ (frameSearchNoSlope cFlat 10 1 default 0).2
        = 0 - (default : FrameData).encoded_size
            + (frameSearchNoSlope cFlat 10 1 default 0).1.encoded_size
    ∧ ((0 : Int) ≤ ((10 : Nat) : Int) → (1 : Int) ≤ 1 →
        (frameSearchNoSlope cFlat 10 1 default 0).2 ≤ ((10 : Nat) : Int))
    ∧ (∀ (rest : List FrameData) (anim2 : Int),
        scanNoSlope cFlat 10 (default :: rest) 1 anim2
          = ((frameSearchNoSlope cFlat 10 1 default anim2).1
               :: (scanNoSlope cFlat 10 rest (1 - 1)
                    (frameSearchNoSlope cFlat 10 1 default anim2).2).1,
             (scanNoSlope cFlat 10 rest (1 - 1)
               (frameSearchNoSlope cFlat 10 1 default anim2).2).2)) :=
  c6_refine_search_contract cFlat 10 1 default 0

end Libwebp

namespace Libwebp

/-- The frame predicate of line 155: final_quality unset, or local slope
    above the limit. -/
def keepFrame (c : Codec) (limit : RDSlope) (lo hi : Nat) (f : FrameData) :
    Prop :=
  f.final_quality = -1
    ∨ gtLimit (computeSlope c f (lo : Int) (((hi - 1 : Nat) : Int))).1 limit
        = true

instance (c : Codec) (limit : RDSlope) (lo hi : Nat) :
    DecidablePred (keepFrame c limit lo hi) := fun f => by
  unfold keepFrame; infer_instance

theorem slopeStep_snd_eq (c : Codec) (limit : RDSlope) (lo hi mid : Nat)
    (frames : List FrameData) (optimList : List Nat)
    (hnd : optimList.Nodup) :
    (slopeStep c limit lo hi mid frames optimList).2
      = optimList.filterMap (fun i =>
          if keepFrame c limit lo hi (frames.getD i default) then some i
          else none) := by
  rw [slopeStep, updEach_snd _ _ _ hnd]
  apply List.filterMap_congr
  intro i _
  simp only
  split
  · rename_i h
    rw [if_pos (by simpa [keepFrame, computeSlope] using h)]
  · rename_i h
    rw [if_neg (fun hc => h (by simpa [keepFrame, computeSlope] using hc))]

theorem slopeStep_length (c : Codec) (limit : RDSlope) (lo hi mid : Nat)
    (frames : List FrameData) (optimList : List Nat) :
    (slopeStep c limit lo hi mid frames optimList).1.length
      = frames.length :=
  updEach_length _ _ _

theorem slopeStep_getD_mem (c : Codec) (limit : RDSlope) (lo hi mid : Nat)
    (frames : List FrameData) (optimList : List Nat) (i : Nat)
    (hnd : optimList.Nodup) (hmem : i ∈ optimList)
    (hlen : i < frames.length) :
    (slopeStep c limit lo hi mid frames optimList).1.getD i default
      = (if keepFrame c limit lo hi (frames.getD i default) then
          { (frames.getD i default) with
            config :=
              { quality := (mid : Int),
                lossless := (frames.getD i default).config.lossless } }
        else
          { (frames.getD i default) with
            config :=
              { quality := (((hi - 1 : Nat) : Int)),
                lossless := (frames.getD i default).config.lossless } }) := by
  rw [slopeStep, updEach_getD_mem _ _ _ _ hnd hmem hlen]
  simp only
  split
  · rename_i h
    rw [if_pos (by simpa [keepFrame, computeSlope] using h)]
    rfl
  · rename_i h
    rw [if_neg (fun hc => h (by simpa [keepFrame, computeSlope] using hc))]
    rfl

theorem slopeStep_getD_notMem (c : Codec) (limit : RDSlope)
    (lo hi mid : Nat) (frames : List FrameData) (optimList : List Nat)
    (i : Nat) (hmem : i ∉ optimList) :
    (slopeStep c limit lo hi mid frames optimList).1.getD i default
      = frames.getD i default :=
  updEach_getD_notMem _ _ _ _ hmem

/-- slopeStep only rewrites config.quality: every other field survives at
    every index. -/
theorem slopeStep_preserves (c : Codec) (limit : RDSlope) (lo hi mid : Nat)
    (frames : List FrameData) (optimList : List Nat) (i : Nat) :
    ((slopeStep c limit lo hi mid frames optimList).1.getD i default).pid
        = (frames.getD i default).pid
    ∧ ((slopeStep c limit lo hi mid frames optimList).1.getD i
          default).config.lossless
        = (frames.getD i default).config.lossless
    ∧ ((slopeStep c limit lo hi mid frames optimList).1.getD i
          default).final_quality
        = (frames.getD i default).final_quality
    ∧ ((slopeStep c limit lo hi mid frames optimList).1.getD i
          default).final_psnr
        = (frames.getD i default).final_psnr
    ∧ ((slopeStep c limit lo hi mid frames optimList).1.getD i
          default).encoded_size
        = (frames.getD i default).encoded_size
    ∧ ((slopeStep c limit lo hi mid frames optimList).1.getD i
          default).near_lossless
        = (frames.getD i default).near_lossless
    ∧ ((slopeStep c limit lo hi mid frames optimList).1.getD i
          default).timestamp_ms
        = (frames.getD i default).timestamp_ms := by
  refine updEach_rel _
    (fun a b => b.pid = a.pid ∧ b.config.lossless = a.config.lossless
      ∧ b.final_quality = a.final_quality ∧ b.final_psnr = a.final_psnr
      ∧ b.encoded_size = a.encoded_size ∧ b.near_lossless = a.near_lossless
      ∧ b.timestamp_ms = a.timestamp_ms)
    (fun f => ⟨rfl, rfl, rfl, rfl, rfl, rfl, rfl⟩)
    (fun a b d hab hbd => ⟨hbd.1.trans hab.1, hbd.2.1.trans hab.2.1,
      hbd.2.2.1.trans hab.2.2.1, hbd.2.2.2.1.trans hab.2.2.2.1,
      hbd.2.2.2.2.1.trans hab.2.2.2.2.1,
      hbd.2.2.2.2.2.1.trans hab.2.2.2.2.2.1,
      hbd.2.2.2.2.2.2.trans hab.2.2.2.2.2.2⟩)
    ?_ optimList frames i
  intro j f
  simp only
  split <;> exact ⟨rfl, rfl, rfl, rfl, rfl, rfl, rfl⟩

theorem slopeOptimLoop_eq_stop (c : Codec) (B : Nat) (limit : RDSlope)
    (frames : List FrameData) (optimList : List Nat) (webp : WebPData)
    (lo hi : Nat) (h : ¬ (lo < hi ∧ optimList ≠ [])) :
    slopeOptimLoop c B limit frames optimList webp lo hi = (frames, webp) := by
  rw [slopeOptimLoop, if_neg h]

theorem slopeOptimLoop_eq_break (c : Codec) (B : Nat) (limit : RDSlope)
    (frames : List FrameData) (optimList : List Nat) (webp : WebPData)
    (lo hi : Nat) (h : lo < hi ∧ optimList ≠ [])
    (hstep : (slopeStep c limit lo hi ((lo + hi - 1) / 2) frames
        optimList).2 = []) :
    slopeOptimLoop c B limit frames optimList webp lo hi
      = ((slopeStep c limit lo hi ((lo + hi - 1) / 2) frames optimList).1,
         webp) := by
  rw [slopeOptimLoop, if_pos h]
  simp only [hstep, if_pos]

theorem slopeOptimLoop_eq_commit (c : Codec) (B : Nat) (limit : RDSlope)
    (frames : List FrameData) (optimList : List Nat) (webp : WebPData)
    (lo hi : Nat) (h : lo < hi ∧ optimList ≠ [])
    (hstep : (slopeStep c limit lo hi ((lo + hi - 1) / 2) frames
        optimList).2 ≠ [])
    (hfit : (generateAnimationNoBudget (slopeStep c limit lo hi
        ((lo + hi - 1) / 2) frames optimList).1).size c ≤ B) :
    slopeOptimLoop c B limit frames optimList webp lo hi
      = slopeOptimLoop c B limit
          (updAll (fun f =>
              { f with final_quality := (((lo + hi - 1) / 2 : Nat) : Int) })
            (slopeStep c limit lo hi ((lo + hi - 1) / 2) frames optimList).1
            (slopeStep c limit lo hi ((lo + hi - 1) / 2) frames optimList).2)
          (slopeStep c limit lo hi ((lo + hi - 1) / 2) frames optimList).2
          (generateAnimationNoBudget (slopeStep c limit lo hi
            ((lo + hi - 1) / 2) frames optimList).1)
          ((lo + hi - 1) / 2 + 1) hi := by
  rw [slopeOptimLoop, if_pos h]
  simp only [hstep, if_neg, if_pos hfit]
  rfl

theorem slopeOptimLoop_eq_fail (c : Codec) (B : Nat) (limit : RDSlope)
    (frames : List FrameData) (optimList : List Nat) (webp : WebPData)
    (lo hi : Nat) (h : lo < hi ∧ optimList ≠ [])
    (hstep : (slopeStep c limit lo hi ((lo + hi - 1) / 2) frames
        optimList).2 ≠ [])
    (hfit : ¬ (generateAnimationNoBudget (slopeStep c limit lo hi
        ((lo + hi - 1) / 2) frames optimList).1).size c ≤ B) :
    slopeOptimLoop c B limit frames optimList webp lo hi
      = slopeOptimLoop c B limit
          (slopeStep c limit lo hi ((lo + hi - 1) / 2) frames optimList).1
          (slopeStep c limit lo hi ((lo + hi - 1) / 2) frames optimList).2
          webp lo ((lo + hi - 1) / 2) := by
  rw [slopeOptimLoop, if_pos h]
  simp only [hstep, if_neg, if_pos, hfit]
  rfl

end Libwebp

namespace Libwebp

/-- The codec monotonicity contract on the assembly side (spec §8): raising
    per-frame qualities (same pictures, same lossless flags) never shrinks
    the assembled animation. -/
def AssembleMono (c : Codec) : Prop :=
  ∀ l₁ l₂ : List (Nat × WebPConfig),
    List.Forall₂ (fun a b : Nat × WebPConfig =>
      a.1 = b.1 ∧ a.2.lossless = b.2.lossless ∧ a.2.quality ≤ b.2.quality)
      l₁ l₂ →
    c.assembleSize l₁ ≤ c.assembleSize l₂

/-- The payload in which every frame is configured at one uniform quality,
    keeping its own lossless flag. -/
def uniformPayload (q : Int) (frames : List FrameData) :
    List (Nat × WebPConfig) :=
  frames.map fun f => (f.pid, { quality := q, lossless := f.config.lossless })

theorem uniformPayload_forall₂ (q q' : Int) (frames : List FrameData)
    (h : q ≤ q') :
    List.Forall₂ (fun a b : Nat × WebPConfig =>
      a.1 = b.1 ∧ a.2.lossless = b.2.lossless ∧ a.2.quality ≤ b.2.quality)
      (uniformPayload q frames) (uniformPayload q' frames) := by
  induction frames with
  | nil => exact List.Forall₂.nil
  | cons f rest ih => exact List.Forall₂.cons ⟨rfl, rfl, h⟩ ih

theorem uniformPayload_congr (q : Int) (frames frames' : List FrameData)
    (hlen : frames'.length = frames.length)
    (hpt : ∀ i, ((frames'.getD i default).pid = (frames.getD i default).pid
      ∧ (frames'.getD i default).config.lossless
          = (frames.getD i default).config.lossless)) :
    uniformPayload q frames' = uniformPayload q frames := by
  apply List.ext_getElem (by simp [uniformPayload, hlen])
  intro n h1 h2
  simp only [uniformPayload, List.getElem_map]
  have hn' : n < frames'.length := by simpa [uniformPayload] using h1
  have hn : n < frames.length := by simpa [uniformPayload] using h2
  have h := hpt n
  rw [List.getD_eq_getElem _ _ hn', List.getD_eq_getElem _ _ hn] at h
  rw [h.1, h.2]

/-- When every frame is still unset, the scan keeps all of `range n` active
    and pushes every frame to the midpoint: the trial payload is uniform. -/
theorem slopeStep_uniform (c : Codec) (limit : RDSlope) (lo hi mid : Nat)
    (frames : List FrameData)
    (hfq : ∀ i, (frames.getD i default).final_quality = -1) :
    framesPayload (slopeStep c limit lo hi mid frames
        (List.range frames.length)).1
      = uniformPayload (mid : Int) frames
    ∧ (slopeStep c limit lo hi mid frames (List.range frames.length)).2
      = List.range frames.length := by
  constructor
  · apply List.ext_getElem
      (by simp [framesPayload, uniformPayload, slopeStep_length])
    intro n h1 h2
    have hn : n < frames.length := by
      simpa [framesPayload, slopeStep_length] using h1
    simp only [framesPayload, uniformPayload, List.getElem_map]
    have hstep := slopeStep_getD_mem c limit lo hi mid frames
      (List.range frames.length) n (List.nodup_range _)
      (List.mem_range.mpr hn) hn
    rw [if_pos (show keepFrame c limit lo hi (frames.getD n default) from
      Or.inl (hfq n))] at hstep
    have hlen : n < (slopeStep c limit lo hi mid frames
        (List.range frames.length)).1.length := by
      rwa [slopeStep_length]
    rw [← List.getD_eq_getElem _ default hlen, hstep,
      ← List.getD_eq_getElem _ default hn]
  · rw [slopeStep_snd_eq c limit lo hi mid frames _ (List.nodup_range _)]
    exact filterMap_guard_eq_self _ _ (fun i _ =>
      show keepFrame c limit lo hi (frames.getD i default) from
        Or.inl (hfq i))

/-- The out-buffer of the slope-optimized binary search: the entry buffer,
    or a committed trial that fits the budget. -/
theorem slopeOptimLoop_webp (c : Codec) (B : Nat) (limit : RDSlope)
    (frames : List FrameData) (optimList : List Nat) (webp : WebPData)
    (lo hi : Nat) :
    (slopeOptimLoop c B limit frames optimList webp lo hi).2 = webp
    ∨ ((slopeOptimLoop c B limit frames optimList webp lo hi).2).size c
        ≤ B := by
  by_cases hg : lo < hi ∧ optimList ≠ []
  · by_cases hstep : (slopeStep c limit lo hi ((lo + hi - 1) / 2) frames
        optimList).2 = []
    · rw [slopeOptimLoop_eq_break c B limit frames optimList webp lo hi hg
        hstep]
      exact Or.inl rfl
    · by_cases hfit : (generateAnimationNoBudget (slopeStep c limit lo hi
          ((lo + hi - 1) / 2) frames optimList).1).size c ≤ B
      · rw [slopeOptimLoop_eq_commit c B limit frames optimList webp lo hi
          hg hstep hfit]
        rcases slopeOptimLoop_webp c B limit _ _ _ ((lo + hi - 1) / 2 + 1)
          hi with h | h
        · exact Or.inr (h ▸ hfit)
        · exact Or.inr h
      · rw [slopeOptimLoop_eq_fail c B limit frames optimList webp lo hi
          hg hstep hfit]
        exact slopeOptimLoop_webp c B limit _ _ _ lo ((lo + hi - 1) / 2)
  · rw [slopeOptimLoop_eq_stop c B limit frames optimList webp lo hi hg]
    exact Or.inl rfl
termination_by hi - lo
decreasing_by
  all_goals omega

/-- Once set, final_quality is only raised by the slope-optimized binary
    search: every committed quality is the current midpoint, which lies
    above every quality committed before (the floor rises past each
    committed midpoint). -/
theorem slopeOptimLoop_fq_mono (c : Codec) (B : Nat) (limit : RDSlope)
    (frames : List FrameData) (optimList : List Nat) (webp : WebPData)
    (lo hi : Nat) (hnd : optimList.Nodup)
    (hinv : ∀ i : Nat, (frames.getD i default).final_quality = -1
      ∨ (frames.getD i default).final_quality < (lo : Int)) :
    ∀ i : Nat, (frames.getD i default).final_quality
      ≤ ((slopeOptimLoop c B limit frames optimList webp lo
            hi).1.getD i default).final_quality := by
  by_cases hg : lo < hi ∧ optimList ≠ []
  · have hpres := slopeStep_preserves c limit lo hi ((lo + hi - 1) / 2)
      frames optimList
    have hnd2 : (slopeStep c limit lo hi ((lo + hi - 1) / 2) frames
        optimList).2.Nodup := by
      rw [slopeStep_snd_eq c limit lo hi ((lo + hi - 1) / 2) frames _ hnd]
      exact nodup_filterMap_guard _ _ hnd
    by_cases hstep : (slopeStep c limit lo hi ((lo + hi - 1) / 2) frames
        optimList).2 = []
    · rw [slopeOptimLoop_eq_break c B limit frames optimList webp lo hi hg
        hstep]
      intro i
      exact le_of_eq ((hpres i).2.2.1).symm
    · by_cases hfit : (generateAnimationNoBudget (slopeStep c limit lo hi
          ((lo + hi - 1) / 2) frames optimList).1).size c ≤ B
      · rw [slopeOptimLoop_eq_commit c B limit frames optimList webp lo hi
          hg hstep hfit]
        intro i
        have hcomm := updAll_rel
          (fun f => { f with
            final_quality := (((lo + hi - 1) / 2 : Nat) : Int) })
          (fun a b => b.final_quality = a.final_quality
            ∨ b.final_quality = (((lo + hi - 1) / 2 : Nat) : Int))
          (fun f => Or.inl rfl)
          (fun a b d hab hbd => by
            rcases hbd with h1 | h1
            · rcases hab with h2 | h2
              · exact Or.inl (h1.trans h2)
              · exact Or.inr (h1.trans h2)
            · exact Or.inr h1)
          (fun f => Or.inr rfl)
          (slopeStep c limit lo hi ((lo + hi - 1) / 2) frames optimList).2
          (slopeStep c limit lo hi ((lo + hi - 1) / 2) frames optimList).1
        have hrec := slopeOptimLoop_fq_mono c B limit
          (updAll (fun f =>
              { f with final_quality := (((lo + hi - 1) / 2 : Nat) : Int) })
            (slopeStep c limit lo hi ((lo + hi - 1) / 2) frames optimList).1
            (slopeStep c limit lo hi ((lo + hi - 1) / 2) frames optimList).2)
          (slopeStep c limit lo hi ((lo + hi - 1) / 2) frames optimList).2
          (generateAnimationNoBudget (slopeStep c limit lo hi
            ((lo + hi - 1) / 2) frames optimList).1)
          ((lo + hi - 1) / 2 + 1) hi hnd2 ?_
        · refine le_trans ?_ (hrec i)
          rcases hcomm i with h1 | h1
          · rw [h1, (hpres i).2.2.1]
          · rw [h1]
            rcases hinv i with h2 | h2
            · rw [h2]
              have : (0 : Int) ≤ (((lo + hi - 1) / 2 : Nat) : Int) :=
                Int.natCast_nonneg _
              omega
            · have hlo : (lo : Int) ≤ (((lo + hi - 1) / 2 : Nat) : Int) := by
                have : lo ≤ (lo + hi - 1) / 2 := by omega
                exact_mod_cast this
              omega
        · intro i
          rcases hcomm i with h1 | h1
          · rw [h1, (hpres i).2.2.1]
            rcases hinv i with h2 | h2
            · exact Or.inl h2
            · refine Or.inr ?_
              have hlo : (lo : Int) ≤ (((lo + hi - 1) / 2 + 1 : Nat) : Int) := by
                have : lo ≤ (lo + hi - 1) / 2 + 1 := by omega
                exact_mod_cast this
              omega
          · rw [h1]
            refine Or.inr ?_
            have : ((lo + hi - 1) / 2 : Nat) < ((lo + hi - 1) / 2 + 1 : Nat) := by
              omega
            exact_mod_cast this
      · rw [slopeOptimLoop_eq_fail c B limit frames optimList webp lo hi
          hg hstep hfit]
        intro i
        have hrec := slopeOptimLoop_fq_mono c B limit
          (slopeStep c limit lo hi ((lo + hi - 1) / 2) frames optimList).1
          (slopeStep c limit lo hi ((lo + hi - 1) / 2) frames optimList).2
          webp lo ((lo + hi - 1) / 2) hnd2 ?_
        · refine le_trans (le_of_eq ((hpres i).2.2.1).symm) (hrec i)
        · intro i
          rw [(hpres i).2.2.1]
          exact hinv i
  · rw [slopeOptimLoop_eq_stop c B limit frames optimList webp lo hi hg]
    intro i
    exact le_refl _
termination_by hi - lo
decreasing_by
  all_goals omega

end Libwebp

namespace Libwebp

/-- When even the uniform quality at the current floor cannot fit the
    budget, the slope-optimized binary search never commits: the buffer
    stays empty and every final_quality stays -1. -/
theorem slopeOptimLoop_no_fit (c : Codec) (B : Nat) (limit : RDSlope)
    (frames : List FrameData) (lo hi : Nat)
    (hfq : ∀ i, (frames.getD i default).final_quality = -1)
    (hfail : ∀ q : Nat, lo ≤ q →
      B < c.assembleSize (uniformPayload (q : Int) frames)) :
    (slopeOptimLoop c B limit frames (List.range frames.length) .empty lo
        hi).2 = .empty
    ∧ ∀ i, ((slopeOptimLoop c B limit frames (List.range frames.length)
        .empty lo hi).1.getD i default).final_quality = -1 := by
  by_cases hg : lo < hi ∧ (List.range frames.length) ≠ []
  · obtain ⟨hpay, hsnd⟩ := slopeStep_uniform c limit lo hi
      ((lo + hi - 1) / 2) frames hfq
    have hpres := slopeStep_preserves c limit lo hi ((lo + hi - 1) / 2)
      frames (List.range frames.length)
    have hlen := slopeStep_length c limit lo hi ((lo + hi - 1) / 2)
      frames (List.range frames.length)
    have hnofit : ¬ (generateAnimationNoBudget (slopeStep c limit lo hi
        ((lo + hi - 1) / 2) frames (List.range frames.length)).1).size c
          ≤ B := by
      show ¬ c.assembleSize (framesPayload _) ≤ B
      rw [hpay]
      exact not_le.mpr (hfail _ (by omega))
    have hstep_ne : (slopeStep c limit lo hi ((lo + hi - 1) / 2) frames
        (List.range frames.length)).2 ≠ [] := by
      rw [hsnd]; exact hg.2
    rw [slopeOptimLoop_eq_fail c B limit frames (List.range frames.length)
      .empty lo hi hg hstep_ne hnofit]
    have hfq' : ∀ i, ((slopeStep c limit lo hi ((lo + hi - 1) / 2) frames
        (List.range frames.length)).1.getD i default).final_quality = -1 :=
      fun i => ((hpres i).2.2.1).trans (hfq i)
    have hfail' : ∀ q : Nat, lo ≤ q →
        B < c.assembleSize (uniformPayload (q : Int)
          (slopeStep c limit lo hi ((lo + hi - 1) / 2) frames
            (List.range frames.length)).1) := by
      intro q hq
      rw [uniformPayload_congr (q : Int) frames _ hlen
        (fun i => ⟨(hpres i).1, (hpres i).2.1⟩)]
      exact hfail q hq
    have hrec := slopeOptimLoop_no_fit c B limit
      (slopeStep c limit lo hi ((lo + hi - 1) / 2) frames
        (List.range frames.length)).1 lo ((lo + hi - 1) / 2) hfq' hfail'
    rw [hlen] at hrec
    rw [hsnd]
    exact hrec
  · rw [slopeOptimLoop_eq_stop c B limit frames _ .empty lo hi hg]
    exact ⟨rfl, hfq⟩
termination_by hi - lo
decreasing_by
  all_goals omega

end Libwebp

namespace Libwebp

theorem lossyEncodeNoSlopeOptim_webp (c : Codec) (B : Nat)
    (frames : List FrameData) (webp : WebPData) :
    (lossyEncodeNoSlopeOptim c B frames webp).2.2 = webp
    ∨ ((lossyEncodeNoSlopeOptim c B frames webp).2.2).size c ≤ B := by
  rw [lossyEncodeNoSlopeOptim]
  by_cases h1 : getAnimationSize c webp > (B : Int)
  · rw [if_pos h1]
    exact Or.inl rfl
  · rw [if_neg h1]
    by_cases h2 : (generateAnimationNoBudget (restoreConfigs
        (scanNoSlope c B frames (frames.length : Int)
          (getAnimationSize c webp)).1)).size c ≤ B
    · rw [if_pos h2]
      exact Or.inr h2
    · rw [if_neg h2]
      exact Or.inl rfl

theorem extraSearch_eq_stop (c : Codec) (B : Nat) (order : List Nat)
    (frames : List FrameData) (webp : WebPData) (minQ maxQ finalQ : Int)
    (h : ¬ minQ ≤ maxQ) :
    extraSearch c B order frames webp minQ maxQ finalQ
      = (frames, webp, finalQ) := by
  rw [extraSearch, dif_neg h]

theorem extraSearch_eq_commit (c : Codec) (B : Nat) (order : List Nat)
    (frames : List FrameData) (webp : WebPData) (minQ maxQ finalQ : Int)
    (h : minQ ≤ maxQ)
    (hfit : (generateAnimationNoBudget (updAll (fun f =>
        { f with config := { f.config with
            quality := max f.final_quality ((minQ + maxQ).tdiv 2) } })
        frames order)).size c ≤ B) :
    extraSearch c B order frames webp minQ maxQ finalQ
      = extraSearch c B order
          (updAll (fun f =>
            { f with config := { f.config with
                quality := max f.final_quality ((minQ + maxQ).tdiv 2) } })
            frames order)
          (generateAnimationNoBudget (updAll (fun f =>
            { f with config := { f.config with
                quality := max f.final_quality ((minQ + maxQ).tdiv 2) } })
            frames order))
          ((minQ + maxQ).tdiv 2 + 1) maxQ ((minQ + maxQ).tdiv 2) := by
  rw [extraSearch, dif_pos h]
  simp only [if_pos hfit]

theorem extraSearch_eq_fail (c : Codec) (B : Nat) (order : List Nat)
    (frames : List FrameData) (webp : WebPData) (minQ maxQ finalQ : Int)
    (h : minQ ≤ maxQ)
    (hfit : ¬ (generateAnimationNoBudget (updAll (fun f =>
        { f with config := { f.config with
            quality := max f.final_quality ((minQ + maxQ).tdiv 2) } })
        frames order)).size c ≤ B) :
    extraSearch c B order frames webp minQ maxQ finalQ
      = extraSearch c B order
          (updAll (fun f =>
            { f with config := { f.config with
                quality := max f.final_quality ((minQ + maxQ).tdiv 2) } })
            frames order)
          webp minQ ((minQ + maxQ).tdiv 2 - 1) finalQ := by
  rw [extraSearch, dif_pos h]
  simp only [if_neg hfit]

theorem extraSearch_webp (c : Codec) (B : Nat) (order : List Nat)
    (frames : List FrameData) (webp : WebPData) (minQ maxQ finalQ : Int) :
    (extraSearch c B order frames webp minQ maxQ finalQ).2.1 = webp
    ∨ ((extraSearch c B order frames webp minQ maxQ finalQ).2.1).size c
        ≤ B := by
  by_cases h : minQ ≤ maxQ
  · have hmid := tdiv2_between minQ maxQ h
    by_cases hfit : (generateAnimationNoBudget (updAll (fun f =>
        { f with config := { f.config with
            quality := max f.final_quality ((minQ + maxQ).tdiv 2) } })
        frames order)).size c ≤ B
    · rw [extraSearch_eq_commit c B order frames webp minQ maxQ finalQ h
        hfit]
      rcases extraSearch_webp c B order _ _ ((minQ + maxQ).tdiv 2 + 1)
        maxQ ((minQ + maxQ).tdiv 2) with hw | hw
      · exact Or.inr (hw ▸ hfit)
      · exact Or.inr hw
    · rw [extraSearch_eq_fail c B order frames webp minQ maxQ finalQ h
        hfit]
      exact extraSearch_webp c B order _ _ minQ ((minQ + maxQ).tdiv 2 - 1)
        finalQ
  · rw [extraSearch_eq_stop c B order frames webp minQ maxQ finalQ h]
    exact Or.inl rfl
termination_by (maxQ + 1 - minQ).toNat
decreasing_by
  all_goals omega

theorem extraLoop_webp (c : Codec) (B : Nat) :
    ∀ (order : List Nat) (frames : List FrameData) (webp : WebPData),
    (extraLoop c B order frames webp).2 = webp
    ∨ ((extraLoop c B order frames webp).2).size c ≤ B := by
  intro order
  induction order with
  | nil => intro frames webp; exact Or.inl rfl
  | cons i rest ih =>
    intro frames webp
    rw [extraLoop]
    by_cases hq : (extraSearch c B (i :: rest) frames webp
        (minCandidate frames (i :: rest))
        (min (minCandidate frames (i :: rest) + 30) 100) (-1)).2.2 ≠ -1
    · rw [if_pos hq]
      rcases ih (extraCommit c (i :: rest)
          (extraSearch c B (i :: rest) frames webp
            (minCandidate frames (i :: rest))
            (min (minCandidate frames (i :: rest) + 30) 100) (-1)).2.2
          (extraSearch c B (i :: rest) frames webp
            (minCandidate frames (i :: rest))
            (min (minCandidate frames (i :: rest) + 30) 100) (-1)).1)
          (extraSearch c B (i :: rest) frames webp
            (minCandidate frames (i :: rest))
            (min (minCandidate frames (i :: rest) + 30) 100) (-1)).2.1
        with hw | hw
      · rw [hw]
        exact extraSearch_webp c B (i :: rest) frames webp _ _ _
      · exact Or.inr hw
    · rw [if_neg hq]
      exact extraSearch_webp c B (i :: rest) frames webp _ _ _

theorem extraLossyEncode_webp (c : Codec) (B : Nat)
    (frames : List FrameData) (webp : WebPData) :
    (extraLossyEncode c B frames webp).2.2 = webp
    ∨ ((extraLossyEncode c B frames webp).2.2).size c ≤ B :=
  extraLoop_webp c B _ _ _

theorem refineLoop_webp (c : Codec) (B : Nat) :
    ∀ (fuel : Nat) (frames : List FrameData) (webp : WebPData)
      (curr : Nat),
    (refineLoop c B frames webp curr fuel).2.2.1 = webp
    ∨ ((refineLoop c B frames webp curr fuel).2.2.1).size c ≤ B := by
  intro fuel
  induction fuel with
  | zero => intro frames webp curr; exact Or.inl rfl
  | succ fuel ih =>
    intro frames webp curr
    rw [refineLoop]
    by_cases h1 : (lossyEncodeNoSlopeOptim c B frames webp).1 ≠ Status.kOk
    · rw [if_pos h1]
      exact lossyEncodeNoSlopeOptim_webp c B frames webp
    · rw [if_neg h1]
      by_cases h2 : curr = ((lossyEncodeNoSlopeOptim c B frames
          webp).2.2).size c
      · rw [if_pos h2]
        exact lossyEncodeNoSlopeOptim_webp c B frames webp
      · rw [if_neg h2]
        rcases ih (lossyEncodeNoSlopeOptim c B frames webp).2.1
            (lossyEncodeNoSlopeOptim c B frames webp).2.2
            (((lossyEncodeNoSlopeOptim c B frames webp).2.2).size c)
          with hw | hw
        · rw [hw]
          exact lossyEncodeNoSlopeOptim_webp c B frames webp
        · exact Or.inr hw

end Libwebp

namespace Libwebp

theorem lossyEncodeSlopeOptim_kOk_size (c : Codec) (B minQ : Nat)
    (frames : List FrameData)
    (h : (lossyEncodeSlopeOptim c B minQ frames .empty).1 = Status.kOk) :
    ((lossyEncodeSlopeOptim c B minQ frames .empty).2.2).size c ≤ B := by
  rcases slopeOptimLoop_webp c B (findMedianSlope c (sortFrames frames))
      (sortFrames frames) (List.range (sortFrames frames).length) .empty
      minQ 101 with hw | hw
  · exfalso
    revert h
    simp [lossyEncodeSlopeOptim, hw, WebPData.size]
  · exact hw

theorem getD_default_of_le (l : List FrameData) (i : Nat)
    (h : l.length ≤ i) : l.getD i default = default := by
  simp [List.getD_eq_getElem?_getD, List.getElem?_eq_none h]

theorem lossyEncodeSlopeOptim_no_fit (c : Codec) (B minQ : Nat)
    (frames : List FrameData) (hmono : AssembleMono c)
    (hfq : ∀ f ∈ frames, f.final_quality = -1)
    (hfloor : B < c.assembleSize
      (uniformPayload (minQ : Int) (sortFrames frames))) :
    (lossyEncodeSlopeOptim c B minQ frames .empty).1
        = Status.kByteBudgetError
    ∧ (lossyEncodeSlopeOptim c B minQ frames .empty).2.2 = .empty
    ∧ ∀ f ∈ (lossyEncodeSlopeOptim c B minQ frames .empty).2.1,
        f.final_quality = -1 := by
  have hfq' : ∀ i, ((sortFrames frames).getD i default).final_quality
      = -1 := by
    intro i
    by_cases hi : i < (sortFrames frames).length
    · rw [List.getD_eq_getElem _ _ hi]
      refine hfq _ ?_
      have hmem := List.getElem_mem
        (l := sortFrames frames) (n := i) hi
      exact ((List.perm_insertionSort _ frames).mem_iff).mp hmem
    · rw [getD_default_of_le _ _ (by omega)]
      rfl
  have hfail : ∀ q : Nat, minQ ≤ q →
      B < c.assembleSize (uniformPayload (q : Int) (sortFrames frames)) := by
    intro q hq
    refine lt_of_lt_of_le hfloor (hmono _ _ ?_)
    exact uniformPayload_forall₂ _ _ _ (by exact_mod_cast hq)
  obtain ⟨hempty, hfqres⟩ := slopeOptimLoop_no_fit c B
    (findMedianSlope c (sortFrames frames)) (sortFrames frames) minQ 101
    hfq' hfail
  refine ⟨?_, hempty, ?_⟩
  · simp [lossyEncodeSlopeOptim, hempty, WebPData.size]
  · intro f hf
    have hf' : f ∈ finalStats c (slopeOptimLoop c B
        (findMedianSlope c (sortFrames frames)) (sortFrames frames)
        (List.range (sortFrames frames).length) .empty minQ 101).1 := hf
    obtain ⟨g, hg, rfl⟩ := List.mem_map.mp hf'
    obtain ⟨i, hil, rfl⟩ := List.mem_iff_getElem.mp hg
    show (slopeOptimLoop c B (findMedianSlope c (sortFrames frames))
        (sortFrames frames) (List.range (sortFrames frames).length)
        .empty minQ 101).1[i].final_quality = -1
    rw [← List.getD_eq_getElem _ default hil]
    exact hfqres i

/-! ### C1: the budgeted pipeline's byte-budget contract -/

/-- C1: starting from an empty output buffer, (a) whenever the budgeted
    pipeline returns kOk the buffer it hands back fits the byte budget (the
    two stages not present in the sources are assumed to honour their §4.6
    contracts), and (b) when even the uniform animation at
    minimum_lossy_quality exceeds the budget (with a monotone assembler, so
    no trial ever fits), no final_quality is committed, the buffer stays
    empty and the run returns kByteBudgetError. -/
theorem c1_byte_budget_contract (c : Codec) (B minQ : Nat)
    (nle eqQ : PipelineStage) (frames : List FrameData)
    (hnle : ∀ fr w, (nle c fr w).2.2 = w ∨ ((nle c fr w).2.2).size c ≤ B)
    (heqQ : ∀ fr w, (eqQ c fr w).1 = Status.kOk →
      ((eqQ c fr w).2.2).size c ≤ B) :
    ((generateAnimationSlopeOptim c B minQ nle eqQ frames .empty).1
        = Status.kOk →
      ((generateAnimationSlopeOptim c B minQ nle eqQ frames
          .empty).2.2.1).size c ≤ B)
    ∧ (AssembleMono c →
       (∀ f ∈ frames, f.final_quality = -1) →
       B < c.assembleSize (uniformPayload (minQ : Int)
         (sortFrames frames)) →
       (generateAnimationSlopeOptim c B minQ nle eqQ frames .empty).1
           = Status.kByteBudgetError
       ∧ (generateAnimationSlopeOptim c B minQ nle eqQ frames .empty).2.2.1
           = .empty
       ∧ ∀ f ∈ (generateAnimationSlopeOptim c B minQ nle eqQ frames
            .empty).2.1, f.final_quality = -1) := by
  constructor
  · intro hok
    rw [generateAnimationSlopeOptim] at hok ⊢
    by_cases h1 : (lossyEncodeSlopeOptim c B minQ frames .empty).1
        ≠ Status.kOk
    · rw [if_pos h1] at hok ⊢
      exact absurd hok h1
    · rw [if_neg h1] at hok ⊢
      have hs1 : ((lossyEncodeSlopeOptim c B minQ frames .empty).2.2).size c
          ≤ B :=
        lossyEncodeSlopeOptim_kOk_size c B minQ frames (not_not.mp h1)
      have hs2 : ((nle c (lossyEncodeSlopeOptim c B minQ frames .empty).2.1
          (lossyEncodeSlopeOptim c B minQ frames .empty).2.2).2.2).size c
          ≤ B := by
        rcases hnle (lossyEncodeSlopeOptim c B minQ frames .empty).2.1
            (lossyEncodeSlopeOptim c B minQ frames .empty).2.2 with hw | hw
        · rw [hw]; exact hs1
        · exact hw
      by_cases h2 : (nle c (lossyEncodeSlopeOptim c B minQ frames
          .empty).2.1 (lossyEncodeSlopeOptim c B minQ frames .empty).2.2).1
          ≠ Status.kOk
      · rw [if_pos h2] at hok ⊢
        exact absurd hok h2
      · rw [if_neg h2] at hok ⊢
        by_cases h3 : ((nle c (lossyEncodeSlopeOptim c B minQ frames
              .empty).2.1 (lossyEncodeSlopeOptim c B minQ frames
              .empty).2.2).2.1.filter (fun f => f.near_lossless)).length = 0
        · rw [if_pos h3] at hok ⊢
          by_cases h4 : (eqQ c (nle c (lossyEncodeSlopeOptim c B minQ
              frames .empty).2.1 (lossyEncodeSlopeOptim c B minQ frames
              .empty).2.2).2.1 (nle c (lossyEncodeSlopeOptim c B minQ
              frames .empty).2.1 (lossyEncodeSlopeOptim c B minQ frames
              .empty).2.2).2.2).1 ≠ Status.kOk
          · rw [if_pos h4] at hok ⊢
            exact absurd hok h4
          · rw [if_neg h4] at hok ⊢
            exact heqQ _ _ (not_not.mp h4)
        · rw [if_neg h3] at hok ⊢
          have hs3 : ((refineLoop c B (nle c (lossyEncodeSlopeOptim c B
              minQ frames .empty).2.1 (lossyEncodeSlopeOptim c B minQ
              frames .empty).2.2).2.1 (nle c (lossyEncodeSlopeOptim c B
              minQ frames .empty).2.1 (lossyEncodeSlopeOptim c B minQ
              frames .empty).2.2).2.2 (((nle c (lossyEncodeSlopeOptim c B
              minQ frames .empty).2.1 (lossyEncodeSlopeOptim c B minQ
              frames .empty).2.2).2.2).size c) 5).2.2.1).size c ≤ B := by
            rcases refineLoop_webp c B 5 _ _ _ with hw | hw
            · rw [hw]; exact hs2
            · exact hw
          by_cases h5 : (refineLoop c B (nle c (lossyEncodeSlopeOptim c B
              minQ frames .empty).2.1 (lossyEncodeSlopeOptim c B minQ
              frames .empty).2.2).2.1 (nle c (lossyEncodeSlopeOptim c B
              minQ frames .empty).2.1 (lossyEncodeSlopeOptim c B minQ
              frames .empty).2.2).2.2 (((nle c (lossyEncodeSlopeOptim c B
              minQ frames .empty).2.1 (lossyEncodeSlopeOptim c B minQ
              frames .empty).2.2).2.2).size c) 5).1 ≠ Status.kOk
          · rw [if_pos h5] at hok ⊢
            exact absurd hok h5
          · rw [if_neg h5] at hok ⊢
            dsimp only at hok ⊢
            rcases extraLossyEncode_webp c B _ _ with hw | hw
            · rw [hw]; exact hs3
            · exact hw
  · intro hmono hfq hfloor
    obtain ⟨hst, hempty, hfqres⟩ :=
      lossyEncodeSlopeOptim_no_fit c B minQ frames hmono hfq hfloor
    rw [generateAnimationSlopeOptim]
    rw [if_pos (by rw [hst]; intro hc; cases hc)]
    exact ⟨hst, hempty, hfqres⟩

/-- Stage oracle modelling a near-lossless attempt that changes nothing. -/
def nleKeep : PipelineStage := fun _ fr w => (Status.kOk, fr, w)

/-- Stage oracle modelling an equal-quality generation returning an empty
    buffer. -/
def eqQEmpty : PipelineStage := fun _ fr _ => (Status.kOk, fr, .empty)

/-- A strictly increasing codec: quality q encodes to size q + 1 with
    PSNR q; the assembler charges 10 bytes for any payload. -/
def cRamp : Codec := ⟨fun _ q => (q + 1, (q : ℚ)), fun _ => 10⟩

/-- A fresh single frame with final_quality unset. -/
def framesW1 : List FrameData :=
  [{ pid := 0, timestamp_ms := 0, config := ⟨0, false⟩, encoded_size := 0,
     final_quality := -1, final_psnr := 0, near_lossless := false }]

/-- Witness for C1 with the identity/empty stage oracles discharged. -/
theorem c1_byte_budget_contract_witness :
    (∀ fr w, (nleKeep cRamp fr w).2.2 = w
      ∨ ((nleKeep cRamp fr w).2.2).size cRamp ≤ 100)
    ∧ (∀ fr w, (eqQEmpty cRamp fr w).1 = Status.kOk →
        ((eqQEmpty cRamp fr w).2.2).size cRamp ≤ 100)
    ∧ (((generateAnimationSlopeOptim cRamp 100 0 nleKeep eqQEmpty framesW1
          .empty).1 = Status.kOk →
        ((generateAnimationSlopeOptim cRamp 100 0 nleKeep eqQEmpty framesW1
            .empty).2.2.1).size cRamp ≤ 100)
      ∧ (AssembleMono cRamp →
         (∀ f ∈ framesW1, f.final_quality = -1) →
         100 < cRamp.assembleSize (uniformPayload ((0 : Nat) : Int)
           (sortFrames framesW1)) →
         (generateAnimationSlopeOptim cRamp 100 0 nleKeep eqQEmpty framesW1
             .empty).1 = Status.kByteBudgetError
         ∧ (generateAnimationSlopeOptim cRamp 100 0 nleKeep eqQEmpty
             framesW1 .empty).2.2.1 = .empty
         ∧ ∀ f ∈ (generateAnimationSlopeOptim cRamp 100 0 nleKeep eqQEmpty
              framesW1 .empty).2.1, f.final_quality = -1)) :=
  ⟨fun fr w => Or.inl rfl,
   fun fr w _ => by simp [eqQEmpty, WebPData.size],
   c1_byte_budget_contract cRamp 100 0 nleKeep eqQEmpty framesW1
     (fun fr w => Or.inl rfl)
     (fun fr w _ => by simp [eqQEmpty, WebPData.size])⟩

end Libwebp

namespace Libwebp

/-- Fuel-indexed executable twin of fsLoop, used to evaluate concrete runs
    (the well-founded original does not reduce definitionally). -/
def fsLoopF (c : Codec) (B : Nat) (rem : Int) :
    Nat → Int → Int → FrameData → Int → FrameData × Int
  | 0, _, _, f, anim => (f, anim)
  | fuel + 1, minQ, maxQ, f, anim =>
    if minQ ≤ maxQ then
      let mid := (minQ + maxQ).tdiv 2
      let f1 := { f with config := { f.config with quality := mid } }
      let st := c.stats f.pid mid
      if st.2 > f.final_psnr ∨ (st.2 = f.final_psnr ∧ st.1 ≤ f.encoded_size)
      then
        if st.1 - f.encoded_size ≤ ((B : Int) - anim).tdiv rem then
          fsLoopF c B rem fuel (mid + 1) maxQ
            { f1 with encoded_size := st.1, final_psnr := st.2,
                      final_quality := mid, near_lossless := false }
            (anim - f.encoded_size + st.1)
        else fsLoopF c B rem fuel minQ (mid - 1) f1 anim
      else fsLoopF c B rem fuel (mid + 1) maxQ f1 anim
    else (f, anim)

theorem fsLoop_eq_fsLoopF (c : Codec) (B : Nat) (rem : Int) :
    ∀ (fuel : Nat) (minQ maxQ : Int) (f : FrameData) (anim : Int),
    (maxQ + 1 - minQ).toNat ≤ fuel →
    fsLoop c B rem minQ maxQ f anim
      = fsLoopF c B rem fuel minQ maxQ f anim := by
  intro fuel
  induction fuel with
  | zero =>
    intro minQ maxQ f anim hfuel
    have h : ¬ minQ ≤ maxQ := by omega
    rw [fsLoop_eq_stop c B rem minQ maxQ f anim h]
    rfl
  | succ fuel ih =>
    intro minQ maxQ f anim hfuel
    by_cases h : minQ ≤ maxQ
    · have hmid := tdiv2_between minQ maxQ h
      by_cases hacc : (c.stats f.pid ((minQ + maxQ).tdiv 2)).2
            > f.final_psnr
          ∨ ((c.stats f.pid ((minQ + maxQ).tdiv 2)).2 = f.final_psnr
             ∧ (c.stats f.pid ((minQ + maxQ).tdiv 2)).1 ≤ f.encoded_size)
      · by_cases hbud : (c.stats f.pid ((minQ + maxQ).tdiv 2)).1
            - f.encoded_size ≤ ((B : Int) - anim).tdiv rem
        · rw [fsLoop_eq_accept c B rem minQ maxQ f anim h hacc hbud,
            ih _ _ _ _ (by omega)]
          show _ = if _ then _ else _
          rw [if_pos h]
          simp only [if_pos hacc, if_pos hbud]
        · rw [fsLoop_eq_reject c B rem minQ maxQ f anim h hacc hbud,
            ih _ _ _ _ (by omega)]
          show _ = if _ then _ else _
          rw [if_pos h]
          simp only [if_pos hacc, if_neg hbud]
      · rw [fsLoop_eq_next c B rem minQ maxQ f anim h hacc,
          ih _ _ _ _ (by omega)]
        show _ = if _ then _ else _
        rw [if_pos h]
        simp only [if_neg hacc]
    · rw [fsLoop_eq_stop c B rem minQ maxQ f anim h]
      show _ = if _ then _ else _
      rw [if_neg h]

end Libwebp

namespace Libwebp

/-- Fuel-indexed executable twin of the slope-optimized binary-search
    loop. -/
def slopeOptimLoopF (c : Codec) (B : Nat) (limit : RDSlope) :
    Nat → List FrameData → List Nat → WebPData → Nat → Nat →
    List FrameData × WebPData
  | 0, frames, _, webp, _, _ => (frames, webp)
  | fuel + 1, frames, optimList, webp, lo, hi =>
    if lo < hi ∧ optimList ≠ [] then
      let mid := (lo + hi - 1) / 2
      let step := slopeStep c limit lo hi mid frames optimList
      if step.2 = [] then (step.1, webp)
      else
        let neww := generateAnimationNoBudget step.1
        if neww.size c ≤ B then
          slopeOptimLoopF c B limit fuel
            (updAll (fun f => { f with final_quality := (mid : Int) })
              step.1 step.2)
            step.2 neww (mid + 1) hi
        else slopeOptimLoopF c B limit fuel step.1 step.2 webp lo mid
    else (frames, webp)

theorem slopeOptimLoop_eq_fuel (c : Codec) (B : Nat) (limit : RDSlope) :
    ∀ (fuel : Nat) (frames : List FrameData) (optimList : List Nat)
      (webp : WebPData) (lo hi : Nat),
    hi - lo ≤ fuel →
    slopeOptimLoop c B limit frames optimList webp lo hi
      = slopeOptimLoopF c B limit fuel frames optimList webp lo hi := by
  intro fuel
  induction fuel with
  | zero =>
    intro frames optimList webp lo hi hfuel
    have h : ¬ (lo < hi ∧ optimList ≠ []) := by
      intro hc
      omega
    rw [slopeOptimLoop_eq_stop c B limit frames optimList webp lo hi h]
    rfl
  | succ fuel ih =>
    intro frames optimList webp lo hi hfuel
    by_cases hg : lo < hi ∧ optimList ≠ []
    · by_cases hstep : (slopeStep c limit lo hi ((lo + hi - 1) / 2) frames
          optimList).2 = []
      · rw [slopeOptimLoop_eq_break c B limit frames optimList webp lo hi
          hg hstep]
        show _ = if _ then _ else _
        rw [if_pos hg]
        simp only [hstep, if_pos]
      · by_cases hfit : (generateAnimationNoBudget (slopeStep c limit lo hi
            ((lo + hi - 1) / 2) frames optimList).1).size c ≤ B
        · rw [slopeOptimLoop_eq_commit c B limit frames optimList webp lo
            hi hg hstep hfit, ih _ _ _ _ _ (by omega)]
          show _ = if _ then _ else _
          rw [if_pos hg]
          simp only [hstep, if_neg, if_pos hfit]
          rfl
        · rw [slopeOptimLoop_eq_fail c B limit frames optimList webp lo hi
            hg hstep hfit, ih _ _ _ _ _ (by omega)]
          show _ = if _ then _ else _
          rw [if_pos hg]
          simp only [hstep, if_neg, if_pos, hfit]
          rfl
    · rw [slopeOptimLoop_eq_stop c B limit frames optimList webp lo hi hg]
      show _ = if _ then _ else _
      rw [if_neg hg]

/-- Fuel-indexed executable twin of FindMedianSlope's binary search. -/
def fmsSearchF (c : Codec) (pid : Nat) (size100 : Int) (psnr100 : ℚ) :
    Nat → Nat → Nat → Option (Nat × RDSlope) → Option (Nat × RDSlope)
  | 0, _, _, acc => acc
  | fuel + 1, lo, hi, acc =>
    if lo < hi then
      let mid := (lo + hi - 1) / 2
      let st := c.stats pid (mid : Int)
      if psnr100 - st.2 ≤ 1 then
        fmsSearchF c pid size100 psnr100 fuel lo mid
          (some (mid, fdiv (psnr100 - st.2) ((size100 : ℚ) - (st.1 : ℚ))))
      else
        fmsSearchF c pid size100 psnr100 fuel (mid + 1) hi acc
    else acc

theorem fmsSearch_eq_fuel (c : Codec) (pid : Nat) (size100 : Int)
    (psnr100 : ℚ) :
    ∀ (fuel lo hi : Nat) (acc : Option (Nat × RDSlope)),
    hi - lo ≤ fuel →
    fmsSearch c pid size100 psnr100 lo hi acc
      = fmsSearchF c pid size100 psnr100 fuel lo hi acc := by
  intro fuel
  induction fuel with
  | zero =>
    intro lo hi acc hfuel
    have h : ¬ lo < hi := by omega
    rw [fmsSearch, if_neg h]
    rfl
  | succ fuel ih =>
    intro lo hi acc hfuel
    by_cases h : lo < hi
    · by_cases hle : psnr100 - (c.stats pid (((lo + hi - 1) / 2 : Nat)
          : Int)).2 ≤ 1
      · rw [fmsSearch, if_pos h]
        simp only [if_pos hle]
        rw [ih _ _ _ (by omega)]
        show _ = if _ then _ else _
        rw [if_pos h]
        simp only [if_pos hle]
      · rw [fmsSearch, if_pos h]
        simp only [if_neg hle]
        rw [ih _ _ _ (by omega)]
        show _ = if _ then _ else _
        rw [if_pos h]
        simp only [if_neg hle]
    · rw [fmsSearch, if_neg h]
      show _ = if _ then _ else _
      rw [if_neg h]

end Libwebp

namespace Libwebp

theorem scanNoSlope_length (c : Codec) (B : Nat) :
    ∀ (frames : List FrameData) (rem anim : Int),
    (scanNoSlope c B frames rem anim).1.length = frames.length := by
  intro frames
  induction frames with
  | nil => intro rem anim; rfl
  | cons f rest ih =>
    intro rem anim
    show ((frameSearchNoSlope c B rem f anim).1 :: _).length = _
    simp [ih]

theorem restoreConfigs_getD (l : List FrameData) (i : Nat)
    (hi : i < l.length) :
    ((restoreConfigs l).getD i default).final_psnr
        = (l.getD i default).final_psnr
    ∧ ((restoreConfigs l).getD i default).final_quality
        = (l.getD i default).final_quality := by
  have hlen : i < (restoreConfigs l).length := by
    simpa [restoreConfigs] using hi
  rw [List.getD_eq_getElem _ _ hlen, List.getD_eq_getElem _ _ hi]
  simp [restoreConfigs]

/-- Per-index monotonicity of the whole refinement pass: PSNR never
    decreases, and the final_quality of a frame whose config is not
    lossless never decreases. -/
theorem lossyEncodeNoSlopeOptim_pointwise (c : Codec) (B : Nat)
    (frames : List FrameData) (webp : WebPData) (i : Nat)
    (hi : i < frames.length) :
    ((frames.getD i default).final_psnr
        ≤ (((lossyEncodeNoSlopeOptim c B frames webp).2.1).getD i
            default).final_psnr)
    ∧ (¬ (frames.getD i default).config.lossless = true →
       (frames.getD i default).final_quality
         ≤ (((lossyEncodeNoSlopeOptim c B frames webp).2.1).getD i
             default).final_quality) := by
  rw [lossyEncodeNoSlopeOptim]
  by_cases h1 : getAnimationSize c webp > (B : Int)
  · rw [if_pos h1]
    exact ⟨le_refl _, fun _ => le_refl _⟩
  · rw [if_neg h1]
    have hp := scanNoSlope_pointwise c B frames (frames.length : Int)
      (getAnimationSize c webp) i hi
    have hilen : i < (scanNoSlope c B frames (frames.length : Int)
        (getAnimationSize c webp)).1.length := by
      rwa [scanNoSlope_length]
    have hr := restoreConfigs_getD _ i hilen
    by_cases h2 : (generateAnimationNoBudget (restoreConfigs
        (scanNoSlope c B frames (frames.length : Int)
          (getAnimationSize c webp)).1)).size c ≤ B
    · rw [if_pos h2]
      dsimp only
      exact ⟨hr.1 ▸ hp.1, fun hl => hr.2 ▸ hp.2 hl⟩
    · rw [if_neg h2]
      dsimp only
      exact ⟨hr.1 ▸ hp.1, fun hl => hr.2 ▸ hp.2 hl⟩

/-- The consistency-aware ordering on frames used for the top-up pass: the
    quality never drops, the picture is unchanged, and when the recorded
    PSNR matches the codec's value at the recorded quality this also holds
    afterwards and the PSNR did not drop. -/
def Rc (c : Codec) (a b : FrameData) : Prop :=
  a.final_quality ≤ b.final_quality ∧ b.pid = a.pid
  ∧ (a.final_psnr = (c.stats a.pid a.final_quality).2 →
     (b.final_psnr = (c.stats b.pid b.final_quality).2
      ∧ a.final_psnr ≤ b.final_psnr))

theorem Rc_refl (c : Codec) (f : FrameData) : Rc c f f :=
  ⟨le_refl _, rfl, fun h => ⟨h, le_refl _⟩⟩

theorem Rc_trans (c : Codec) (a b d : FrameData) (hab : Rc c a b)
    (hbd : Rc c b d) : Rc c a d := by
  refine ⟨hab.1.trans hbd.1, hbd.2.1.trans hab.2.1, fun h => ?_⟩
  obtain ⟨hb, hab2⟩ := hab.2.2 h
  obtain ⟨hd, hbd2⟩ := hbd.2.2 hb
  exact ⟨hd, hab2.trans hbd2⟩

theorem Rc_of_preserved (c : Codec) (a b : FrameData)
    (h1 : b.final_quality = a.final_quality)
    (h2 : b.final_psnr = a.final_psnr) (h3 : b.pid = a.pid) : Rc c a b :=
  ⟨le_of_eq h1.symm, h3, fun h => ⟨by rw [h1, h2, h3, h], le_of_eq h2.symm⟩⟩

theorem extraSearch_preserves (c : Codec) (B : Nat) (order : List Nat)
    (frames : List FrameData) (webp : WebPData) (minQ maxQ finalQ : Int)
    (i : Nat) :
    ((extraSearch c B order frames webp minQ maxQ finalQ).1.getD i
        default).final_quality = (frames.getD i default).final_quality
    ∧ ((extraSearch c B order frames webp minQ maxQ finalQ).1.getD i
        default).final_psnr = (frames.getD i default).final_psnr
    ∧ ((extraSearch c B order frames webp minQ maxQ finalQ).1.getD i
        default).pid = (frames.getD i default).pid := by
  have hupd := updAll_rel
    (fun f => { f with config := { f.config with
        quality := max f.final_quality ((minQ + maxQ).tdiv 2) } })
    (fun a b => b.final_quality = a.final_quality
      ∧ b.final_psnr = a.final_psnr ∧ b.pid = a.pid)
    (fun f => ⟨rfl, rfl, rfl⟩)
    (fun a b d hab hbd => ⟨hbd.1.trans hab.1, hbd.2.1.trans hab.2.1,
      hbd.2.2.trans hab.2.2⟩)
    (fun f => ⟨rfl, rfl, rfl⟩) order frames
  by_cases h : minQ ≤ maxQ
  · have hmid := tdiv2_between minQ maxQ h
    by_cases hfit : (generateAnimationNoBudget (updAll (fun f =>
        { f with config := { f.config with
            quality := max f.final_quality ((minQ + maxQ).tdiv 2) } })
        frames order)).size c ≤ B
    · rw [extraSearch_eq_commit c B order frames webp minQ maxQ finalQ h
        hfit]
      have hrec := extraSearch_preserves c B order
        (updAll (fun f => { f with config := { f.config with
            quality := max f.final_quality ((minQ + maxQ).tdiv 2) } })
          frames order)
        (generateAnimationNoBudget (updAll (fun f =>
          { f with config := { f.config with
              quality := max f.final_quality ((minQ + maxQ).tdiv 2) } })
          frames order))
        ((minQ + maxQ).tdiv 2 + 1) maxQ ((minQ + maxQ).tdiv 2) i
      exact ⟨hrec.1.trans (hupd i).1, hrec.2.1.trans (hupd i).2.1,
        hrec.2.2.trans (hupd i).2.2⟩
    · rw [extraSearch_eq_fail c B order frames webp minQ maxQ finalQ h
        hfit]
      have hrec := extraSearch_preserves c B order
        (updAll (fun f => { f with config := { f.config with
            quality := max f.final_quality ((minQ + maxQ).tdiv 2) } })
          frames order)
        webp minQ ((minQ + maxQ).tdiv 2 - 1) finalQ i
      exact ⟨hrec.1.trans (hupd i).1, hrec.2.1.trans (hupd i).2.1,
        hrec.2.2.trans (hupd i).2.2⟩
  · rw [extraSearch_eq_stop c B order frames webp minQ maxQ finalQ h]
    exact ⟨rfl, rfl, rfl⟩
termination_by (maxQ + 1 - minQ).toNat
decreasing_by
  all_goals omega

theorem extraCommit_Rc (c : Codec) (order : List Nat) (finalQ : Int)
    (frames : List FrameData)
    (hmono : ∀ pid q q', q ≤ q' → (c.stats pid q).2 ≤ (c.stats pid q').2)
    (i : Nat) :
    Rc c (frames.getD i default)
      ((extraCommit c order finalQ frames).getD i default) := by
  refine updAll_rel _ (Rc c) (Rc_refl c) (Rc_trans c) ?_ order frames i
  intro f
  simp only
  by_cases h : f.final_quality < finalQ
  · rw [if_pos h]
    refine ⟨le_of_lt h, rfl, fun hc => ⟨rfl, ?_⟩⟩
    rw [hc]
    exact hmono f.pid _ _ (le_of_lt h)
  · rw [if_neg h]
    exact Rc_refl c f

theorem extraLoop_Rc (c : Codec) (B : Nat)
    (hmono : ∀ pid q q', q ≤ q' → (c.stats pid q).2 ≤ (c.stats pid q').2) :
    ∀ (order : List Nat) (frames : List FrameData) (webp : WebPData)
      (i : Nat),
    Rc c (frames.getD i default)
      ((extraLoop c B order frames webp).1.getD i default) := by
  intro order
  induction order with
  | nil => intro frames webp i; exact Rc_refl c _
  | cons j rest ih =>
    intro frames webp i
    rw [extraLoop]
    have hsearch := extraSearch_preserves c B (j :: rest) frames webp
      (minCandidate frames (j :: rest))
      (min (minCandidate frames (j :: rest) + 30) 100) (-1) i
    have hsRc : Rc c (frames.getD i default)
        ((extraSearch c B (j :: rest) frames webp
          (minCandidate frames (j :: rest))
          (min (minCandidate frames (j :: rest) + 30) 100) (-1)).1.getD i
            default) :=
      Rc_of_preserved c _ _ hsearch.1 hsearch.2.1 hsearch.2.2
    by_cases hq : (extraSearch c B (j :: rest) frames webp
        (minCandidate frames (j :: rest))
        (min (minCandidate frames (j :: rest) + 30) 100) (-1)).2.2 ≠ -1
    · rw [if_pos hq]
      refine Rc_trans c _ _ _ (Rc_trans c _ _ _ hsRc ?_) (ih _ _ i)
      exact extraCommit_Rc c (j :: rest) _ _ hmono i
    · rw [if_neg hq]
      exact hsRc

theorem buildEncodingOrder_preserves (c : Codec)
    (frames : List FrameData) (i : Nat) :
    ((buildEncodingOrder c frames).1.getD i default).final_quality
        = (frames.getD i default).final_quality
    ∧ ((buildEncodingOrder c frames).1.getD i default).final_psnr
        = (frames.getD i default).final_psnr
    ∧ ((buildEncodingOrder c frames).1.getD i default).pid
        = (frames.getD i default).pid := by
  refine updEach_rel _
    (fun a b => b.final_quality = a.final_quality
      ∧ b.final_psnr = a.final_psnr ∧ b.pid = a.pid)
    (fun f => ⟨rfl, rfl, rfl⟩)
    (fun a b d hab hbd => ⟨hbd.1.trans hab.1, hbd.2.1.trans hab.2.1,
      hbd.2.2.trans hab.2.2⟩)
    ?_ (List.range frames.length) frames i
  intro j f
  simp only
  split
  · exact ⟨rfl, rfl, rfl⟩
  · exact ⟨rfl, rfl, rfl⟩

theorem extraLossyEncode_Rc (c : Codec) (B : Nat)
    (hmono : ∀ pid q q', q ≤ q' → (c.stats pid q).2 ≤ (c.stats pid q').2)
    (frames : List FrameData) (webp : WebPData) (i : Nat) :
    Rc c (frames.getD i default)
      ((extraLossyEncode c B frames webp).2.1.getD i default) := by
  have hb := buildEncodingOrder_preserves c frames i
  exact Rc_trans c _ _ _
    (Rc_of_preserved c _ _ hb.1 hb.2.1 hb.2.2)
    (extraLoop_Rc c B hmono _ _ _ i)

end Libwebp

namespace Libwebp

/-! ### C2: monotonicity of final_quality across the passes -/

/-- A monotone codec whose sizes and PSNR jump at quality 86 (10 bytes,
    50 dB up to 85; a megabyte, 60 dB above). -/
def c2x : Codec :=
  ⟨fun _ q => if q ≤ 85 then (10, 50) else (1000000, 60), fun _ => 10⟩

/-- A frame in the state NearLosslessEqual can leave it in: config switched
    to lossless, final_quality 95 from the lossy search, and a stored PSNR
    of 40 from the near-lossless measurement. -/
def f2x : FrameData :=
  { pid := 0, timestamp_ms := 0, config := ⟨95, true⟩, encoded_size := 10,
    final_quality := 95, final_psnr := 40, near_lossless := true }

/-- C2 as stated is false: LossyEncodeNoSlopeOptim rewrites the
    lossless-configured frame's final_quality from 95 down to 85 (its
    search restarts at floor 70, accepts the better-PSNR candidate 85, and
    the budget rejects everything above), so a later write is smaller than
    an earlier one even though the codec is monotone. -/
theorem c2_counterexample :
    f2x.final_quality = 95
    ∧ ((lossyEncodeNoSlopeOptim c2x 100 [f2x]
        (.data [(0, ⟨95, true⟩)])).2.1.getD 0 default).final_quality = 85
    ∧ ¬ ((95 : Int) ≤ 85) := by
  refine ⟨rfl, ?_, by decide⟩
  rw [lossyEncodeNoSlopeOptim]
  have hanim : getAnimationSize c2x (WebPData.data [(0, ⟨95, true⟩)])
      = 10 := by decide
  rw [hanim, if_neg (by decide)]
  norm_num [scanNoSlope, frameSearchNoSlope, f2x]
  rw [fsLoop_eq_fsLoopF c2x 100 1 40]
  · decide
  · decide

/-- C2 amended: final_quality is non-decreasing within the slope-optimized
    pass (every write raises a set quality past the floor); within the
    refinement pass for every frame whose config is not lossless (a
    lossless-configured frame restarts at floor 70 and may be lowered, see
    the counterexample), where PSNR is non-decreasing for every frame; and
    within the extra-lossy top-up pass unconditionally, with PSNR
    non-decreasing there whenever the stored PSNR is consistent with the
    codec at the stored quality (the codec monotonicity contract supplies
    the PSNR part). -/
theorem c2_amended_final_quality_monotone (c : Codec) (B : Nat)
    (hmono : ∀ (pid : Nat) (q q' : Int), q ≤ q' →
      (c.stats pid q).2 ≤ (c.stats pid q').2) :
    (∀ (limit : RDSlope) (frames : List FrameData) (optimList : List Nat)
       (webp : WebPData) (lo hi : Nat),
       optimList.Nodup →
       (∀ i : Nat, (frames.getD i default).final_quality = -1
         ∨ (frames.getD i default).final_quality < (lo : Int)) →
       ∀ i : Nat, (frames.getD i default).final_quality
         ≤ ((slopeOptimLoop c B limit frames optimList webp lo
               hi).1.getD i default).final_quality)
    ∧ (∀ (frames : List FrameData) (webp : WebPData) (i : Nat),
        i < frames.length →
        ((frames.getD i default).final_psnr
            ≤ (((lossyEncodeNoSlopeOptim c B frames webp).2.1).getD i
                default).final_psnr)
        ∧ (¬ (frames.getD i default).config.lossless = true →
           (frames.getD i default).final_quality
             ≤ (((lossyEncodeNoSlopeOptim c B frames webp).2.1).getD i
                 default).final_quality))
    ∧ (∀ (frames : List FrameData) (webp : WebPData) (i : Nat),
        (frames.getD i default).final_quality
          ≤ ((extraLossyEncode c B frames webp).2.1.getD i
              default).final_quality
        ∧ ((frames.getD i default).final_psnr
              = (c.stats (frames.getD i default).pid
                  (frames.getD i default).final_quality).2 →
           (frames.getD i default).final_psnr
             ≤ ((extraLossyEncode c B frames webp).2.1.getD i
                 default).final_psnr)) :=
  ⟨fun limit frames optimList webp lo hi hnd hinv =>
    slopeOptimLoop_fq_mono c B limit frames optimList webp lo hi hnd hinv,
   fun frames webp i hi =>
    lossyEncodeNoSlopeOptim_pointwise c B frames webp i hi,
   fun frames webp i =>
    ⟨(extraLossyEncode_Rc c B hmono frames webp i).1,
     fun hc => ((extraLossyEncode_Rc c B hmono frames webp i).2.2 hc).2⟩⟩

/-- Witness for C2's amended statement at the ramp codec (whose PSNR is
    monotone in quality). -/
theorem c2_amended_final_quality_monotone_witness :
    (∀ (pid : Nat) (q q' : Int), q ≤ q' →
      (cRamp.stats pid q).2 ≤ (cRamp.stats pid q').2)
    ∧ ((∀ (limit : RDSlope) (frames : List FrameData)
         (optimList : List Nat) (webp : WebPData) (lo hi : Nat),
         optimList.Nodup →
         (∀ i : Nat, (frames.getD i default).final_quality = -1
           ∨ (frames.getD i default).final_quality < (lo : Int)) →
         ∀ i : Nat, (frames.getD i default).final_quality
           ≤ ((slopeOptimLoop cRamp 100 limit frames optimList webp lo
                 hi).1.getD i default).final_quality)
      ∧ (∀ (frames : List FrameData) (webp : WebPData) (i : Nat),
          i < frames.length →
          ((frames.getD i default).final_psnr
              ≤ (((lossyEncodeNoSlopeOptim cRamp 100 frames webp).2.1).getD
                  i default).final_psnr)
          ∧ (¬ (frames.getD i default).config.lossless = true →
             (frames.getD i default).final_quality
               ≤ (((lossyEncodeNoSlopeOptim cRamp 100 frames
                   webp).2.1).getD i default).final_quality))
      ∧ (∀ (frames : List FrameData) (webp : WebPData) (i : Nat),
          (frames.getD i default).final_quality
            ≤ ((extraLossyEncode cRamp 100 frames webp).2.1.getD i
                default).final_quality
          ∧ ((frames.getD i default).final_psnr
                = (cRamp.stats (frames.getD i default).pid
                    (frames.getD i default).final_quality).2 →
             (frames.getD i default).final_psnr
               ≤ ((extraLossyEncode cRamp 100 frames webp).2.1.getD i
                   default).final_psnr))) :=
  ⟨fun pid q q' h => by simp only [cRamp]; exact_mod_cast h,
   c2_amended_final_quality_monotone cRamp 100
     (fun pid q q' h => by simp only [cRamp]; exact_mod_cast h)⟩

end Libwebp

namespace Libwebp

/-- The binary search of FindMedianSlope returns the least quality whose
    PSNR is within 1 dB of quality 100, under upward closure of that test
    (which the codec monotonicity contract provides). -/
theorem fmsSearch_finds_least (c : Codec) (pid : Nat) (size100 : Int)
    (psnr100 : ℚ)
    (hup : ∀ q q' : Nat, q ≤ q' →
      psnr100 - (c.stats pid (q : Int)).2 ≤ 1 →
      psnr100 - (c.stats pid ((q' : Nat) : Int)).2 ≤ 1)
    (h100 : psnr100 - (c.stats pid ((100 : Nat) : Int)).2 ≤ 1) :
    ∀ (lo hi : Nat) (acc : Option (Nat × RDSlope)),
    lo ≤ hi → hi ≤ 101 →
    (∀ q : Nat, hi ≤ q → q ≤ 100 →
      psnr100 - (c.stats pid (q : Int)).2 ≤ 1) →
    (∀ q : Nat, q < lo → ¬ psnr100 - (c.stats pid (q : Int)).2 ≤ 1) →
    (∀ b s, acc = some (b, s) → b = hi ∧ hi ≤ 100) →
    (acc = none → hi = 101) →
    ∃ (qb : Nat) (s : RDSlope),
      fmsSearch c pid size100 psnr100 lo hi acc = some (qb, s)
      ∧ qb ≤ 100
      ∧ psnr100 - (c.stats pid (qb : Int)).2 ≤ 1
      ∧ ∀ q : Nat, q < qb → ¬ psnr100 - (c.stats pid (q : Int)).2 ≤ 1 := by
  intro lo hi acc
  induction lo, hi, acc using fmsSearch.induct c pid size100 psnr100 with
  | case1 lo hi acc hlt mid st hle ih =>
    intro _hle hhi hB hC _hD _hE
    rw [fmsSearch, if_pos hlt, if_pos hle]
    refine ih (by omega) (by omega) ?_ hC ?_ (by intro h; cases h)
    · intro q hq hq100
      exact hup ((lo + hi - 1) / 2) q hq hle
    · intro b s hbs
      injection hbs with hbs'
      injection hbs' with hb hs
      exact ⟨hb.symm, by omega⟩
  | case2 lo hi acc hlt mid st hle ih =>
    intro _hle hhi hB hC hD hE
    rw [fmsSearch, if_pos hlt, if_neg hle]
    refine ih (by omega) hhi hB ?_ hD hE
    intro q hq
    by_cases hql : q < lo
    · exact hC q hql
    · intro hcon
      exact hle (hup q ((lo + hi - 1) / 2) (by omega) hcon)
  | case3 lo hi acc hlt =>
    intro hle hhi hB hC hD hE
    rw [fmsSearch, if_neg hlt]
    rcases acc with _ | ⟨b, s⟩
    · exfalso
      have h101 : hi = 101 := hE rfl
      exact hC 100 (by omega) h100
    · obtain ⟨hb, hb100⟩ := hD b s rfl
      subst hb
      exact ⟨b, s, rfl, hb100, hB b (le_refl _) hb100,
        fun q hq => hC q (by omega)⟩

/-- RDSlope.le is total and transitive (wanted by the sortedness of the
    modelled std::sort). -/
instance : IsTotal RDSlope RDSlope.le :=
  ⟨fun a b => by
    cases a <;> cases b <;> simp [RDSlope.le] <;> exact le_total _ _⟩

instance : IsTrans RDSlope RDSlope.le :=
  ⟨fun a b d hab hbd => by
    cases a <;> cases b <;> cases d <;> simp_all [RDSlope.le] <;>
      exact le_trans hab hbd⟩

/-! ### C4: the threshold search and the median limit slope -/

/-- C4: for every frame, the threshold search returns the smallest quality
    q in [0,100] with PSNR(100) - PSNR(q) ≤ 1.0 (under the codec's PSNR
    monotonicity contract), recording as the frame's slope exactly the
    division (PSNR(100) - PSNR(q)) / (size(100) - size(q)) at that
    boundary; and the limit slope FindMedianSlope returns is the element at
    index n/2 of the sorted (std::sort modelled as a sorted permutation)
    list of those per-frame boundary slopes. -/
theorem c4_threshold_search_median (c : Codec) (frames : List FrameData)
    (hmono : ∀ (pid : Nat) (q q' : Int), q ≤ q' →
      (c.stats pid q).2 ≤ (c.stats pid q').2) :
    (∀ pid : Nat, ∃ (qb : Nat) (s : RDSlope),
      findFrameSlope c pid = some (qb, s)
      ∧ qb ≤ 100
      ∧ (c.stats pid 100).2 - (c.stats pid (qb : Int)).2 ≤ 1
      ∧ (∀ q : Nat, q < qb →
          ¬ (c.stats pid 100).2 - (c.stats pid (q : Int)).2 ≤ 1)
      ∧ s = fdiv ((c.stats pid 100).2 - (c.stats pid (qb : Int)).2)
          (((c.stats pid 100).1 : ℚ) - ((c.stats pid (qb : Int)).1 : ℚ)))
    ∧ List.Sorted RDSlope.le ((frames.map (fun f =>
        ((findFrameSlope c f.pid).map Prod.snd).getD .undef)).insertionSort
          RDSlope.le)
    ∧ ((frames.map (fun f =>
        ((findFrameSlope c f.pid).map Prod.snd).getD
          .undef)).insertionSort RDSlope.le).Perm
        (frames.map (fun f =>
          ((findFrameSlope c f.pid).map Prod.snd).getD .undef))
    ∧ findMedianSlope c frames
        = ((frames.map (fun f =>
            ((findFrameSlope c f.pid).map Prod.snd).getD
              .undef)).insertionSort RDSlope.le).getD
            (frames.length / 2) .undef := by
  refine ⟨?_, List.sorted_insertionSort _ _, List.perm_insertionSort _ _,
    by simp [findMedianSlope]⟩
  intro pid
  have hup : ∀ q q' : Nat, q ≤ q' →
      (c.stats pid 100).2 - (c.stats pid (q : Int)).2 ≤ 1 →
      (c.stats pid 100).2 - (c.stats pid ((q' : Nat) : Int)).2 ≤ 1 := by
    intro q q' hqq h
    have := hmono pid (q : Int) (q' : Int) (by exact_mod_cast hqq)
    linarith
  have h100 : (c.stats pid 100).2
      - (c.stats pid ((100 : Nat) : Int)).2 ≤ 1 := by
    norm_num
  obtain ⟨qb, s, hfind, hqb, hP, hleast⟩ :=
    fmsSearch_finds_least c pid (c.stats pid 100).1 (c.stats pid 100).2
      hup h100 0 101 none (by omega) (by omega)
      (fun q hq hq' => by omega)
      (fun q hq => by omega)
      (fun b s h => by cases h)
      (fun _ => rfl)
  refine ⟨qb, s, hfind, hqb, hP, hleast, ?_⟩
  exact fmsSearch_acc_shape c pid (c.stats pid 100).1 (c.stats pid 100).2
    0 101 none (by intro q s h; cases h) qb s hfind

end Libwebp

namespace Libwebp

/-- Witness for C4 at the ramp codec (PSNR monotone in quality). -/
theorem c4_threshold_search_median_witness :
    (∀ (pid : Nat) (q q' : Int), q ≤ q' →
      (cRamp.stats pid q).2 ≤ (cRamp.stats pid q').2)
    ∧ ((∀ pid : Nat, ∃ (qb : Nat) (s : RDSlope),
        findFrameSlope cRamp pid = some (qb, s)
        ∧ qb ≤ 100
        ∧ (cRamp.stats pid 100).2 - (cRamp.stats pid (qb : Int)).2 ≤ 1
        ∧ (∀ q : Nat, q < qb →
            ¬ (cRamp.stats pid 100).2 - (cRamp.stats pid (q : Int)).2 ≤ 1)
        ∧ s = fdiv ((cRamp.stats pid 100).2 - (cRamp.stats pid
              (qb : Int)).2)
            (((cRamp.stats pid 100).1 : ℚ)
              - ((cRamp.stats pid (qb : Int)).1 : ℚ)))
      ∧ List.Sorted RDSlope.le ((framesW1.map (fun f =>
          ((findFrameSlope cRamp f.pid).map Prod.snd).getD
            .undef)).insertionSort RDSlope.le)
      ∧ ((framesW1.map (fun f =>
          ((findFrameSlope cRamp f.pid).map Prod.snd).getD
            .undef)).insertionSort RDSlope.le).Perm
          (framesW1.map (fun f =>
            ((findFrameSlope cRamp f.pid).map Prod.snd).getD .undef))
      ∧ findMedianSlope cRamp framesW1
          = ((framesW1.map (fun f =>
              ((findFrameSlope cRamp f.pid).map Prod.snd).getD
                .undef)).insertionSort RDSlope.le).getD
              (framesW1.length / 2) .undef) :=
  ⟨fun pid q q' h => by simp only [cRamp]; exact_mod_cast h,
   c4_threshold_search_median cRamp framesW1
     (fun pid q q' h => by simp only [cRamp]; exact_mod_cast h)⟩

end Libwebp

namespace Libwebp

theorem sorted_headD_le (l : List ℚ) (hs : List.Sorted (· ≤ ·) l) :
    ∀ x ∈ l, l.headD 0 ≤ x := by
  cases l with
  | nil => intro x hx; cases hx
  | cons a t =>
    intro x hx
    rcases List.mem_cons.mp hx with rfl | hx'
    · exact le_refl _
    · exact (List.sorted_cons.mp hs).1 x hx'

theorem sorted_le_getLastD (l : List ℚ) (hs : List.Sorted (· ≤ ·) l) :
    ∀ x ∈ l, x ≤ l.getLastD 0 := by
  induction l with
  | nil => intro x hx; cases hx
  | cons a t ih =>
    intro x hx
    cases t with
    | nil =>
      rcases List.mem_cons.mp hx with rfl | hx'
      · exact le_refl _
      · cases hx'
    | cons b t' =>
      have hrest := ih (List.sorted_cons.mp hs).2
      have hlast : (a :: b :: t').getLastD 0 = (b :: t').getLastD 0 := rfl
      rw [hlast]
      rcases List.mem_cons.mp hx with rfl | hx'
      · exact le_trans ((List.sorted_cons.mp hs).1 b
          (List.mem_cons_self b t'))
          (hrest b (List.mem_cons_self b t'))
      · exact hrest x hx'

theorem headD_mem (l : List ℚ) (h : l ≠ []) : l.headD 0 ∈ l := by
  cases l with
  | nil => exact absurd rfl h
  | cons a t => exact List.mem_cons_self a t

theorem getLastD_mem (l : List ℚ) (h : l ≠ []) : l.getLastD 0 ∈ l := by
  induction l with
  | nil => exact absurd rfl h
  | cons a t ih =>
    cases t with
    | nil => exact List.mem_cons_self a []
    | cons b t' =>
      exact List.mem_cons_of_mem a (ih (List.cons_ne_nil b t'))

end Libwebp

namespace Libwebp

/-! ### C8: AnimData2PSNR alignment, failure and aggregates -/

/-- C8: the decoded pointer advances only when the next decoded frame's
    timestamp equals the current original timestamp; the result status is
    not kOk iff the number of PSNR values measured differs from the number
    of original frames; and on kOk the stats hold one value per original
    frame, their min and max (which belong to the list and bound every
    entry), their mean (sum divided by the frame count), and their median,
    the element at index n/2 of the sorted values (a sorted permutation of
    the measured list). -/
theorem c8_psnr_stats_contract (dist : Nat → Nat → Option ℚ)
    (original : List UFrame) (decoded : Option (List UFrame))
    (hne : original ≠ [])
    (hdec : ∀ nf, decoded = some nf → nf ≠ []) :
    (∀ (nf : List UFrame) (idx : Nat) (t : Int),
       advIdx nf idx t ≠ idx →
       (advIdx nf idx t = idx + 1 ∧ idx + 1 < nf.length
        ∧ (nf.getD (idx + 1) default).timestamp = t))
    ∧ ((animData2PSNR dist original decoded).1 ≠ UtilsStatus.kOk
       ↔ (animData2PSNR dist original decoded).2.psnr.length
           ≠ original.length)
    ∧ ((animData2PSNR dist original decoded).1 = UtilsStatus.kOk →
       (animData2PSNR dist original decoded).2.psnr.length
           = original.length
       ∧ (∀ x ∈ (animData2PSNR dist original decoded).2.psnr,
            (animData2PSNR dist original decoded).2.min_psnr ≤ x
            ∧ x ≤ (animData2PSNR dist original decoded).2.max_psnr)
       ∧ (animData2PSNR dist original decoded).2.min_psnr
           ∈ (animData2PSNR dist original decoded).2.psnr
       ∧ (animData2PSNR dist original decoded).2.max_psnr
           ∈ (animData2PSNR dist original decoded).2.psnr
       ∧ (animData2PSNR dist original decoded).2.mean_psnr
           = ((animData2PSNR dist original decoded).2.psnr).sum
             / (original.length : ℚ)
       ∧ (animData2PSNR dist original decoded).2.median_psnr
           = (((animData2PSNR dist original decoded).2.psnr).insertionSort
               (· ≤ ·)).getD (original.length / 2) 0
       ∧ List.Sorted (· ≤ ·)
           (((animData2PSNR dist original decoded).2.psnr).insertionSort
             (· ≤ ·))
       ∧ ((((animData2PSNR dist original decoded).2.psnr).insertionSort
            (· ≤ ·)).Perm ((animData2PSNR dist original decoded).2.psnr))) := by
  have hadv : ∀ (nf : List UFrame) (idx : Nat) (t : Int),
      advIdx nf idx t ≠ idx →
      (advIdx nf idx t = idx + 1 ∧ idx + 1 < nf.length
       ∧ (nf.getD (idx + 1) default).timestamp = t) := by
    intro nf idx t h
    rw [advIdx] at h ⊢
    by_cases hc : idx + 1 < nf.length
        ∧ (nf.getD (idx + 1) default).timestamp = t
    · rw [if_pos hc]
      exact ⟨rfl, hc⟩
    · rw [if_neg hc] at h
      exact absurd rfl h
  refine ⟨hadv, ?_, ?_⟩
  · rcases decoded with _ | nf
    · show UtilsStatus.kMemoryError ≠ UtilsStatus.kOk ↔ _
      constructor
      · intro _
        show ([] : List ℚ).length ≠ original.length
        simpa using fun hc => hne (List.length_eq_zero.mp hc.symm)
      · intro _ hc
        cases hc
    · simp only [animData2PSNR]
      by_cases hlen : (psnrWalk dist nf original 0 []).length
          ≠ original.length
      · rw [if_pos hlen]
        simpa using hlen
      · rw [if_neg hlen]
        simpa using fun hc => hlen hc
  · intro hok
    rcases decoded with _ | nf
    · cases hok
    · by_cases hlen : (psnrWalk dist nf original 0 []).length
          ≠ original.length
      · exfalso
        revert hok
        simp only [animData2PSNR]
        rw [if_pos hlen]
        intro hc
        cases hc
      · have hres : animData2PSNR dist original (some nf)
            = (UtilsStatus.kOk,
              { psnr := psnrWalk dist nf original 0 [],
                min_psnr := ((psnrWalk dist nf original 0 []).insertionSort
                  (· ≤ ·)).headD 0,
                max_psnr := ((psnrWalk dist nf original 0 []).insertionSort
                  (· ≤ ·)).getLastD 0,
                mean_psnr := ((psnrWalk dist nf original 0
                  []).insertionSort (· ≤ ·)).sum / (original.length : ℚ),
                median_psnr := ((psnrWalk dist nf original 0
                  []).insertionSort (· ≤ ·)).getD
                    (original.length / 2) 0 }) := by
          simp only [animData2PSNR]
          rw [if_neg hlen]
        rw [hres]
        have hsorted := List.sorted_insertionSort (α := ℚ) (· ≤ ·)
          (psnrWalk dist nf original 0 [])
        have hperm := List.perm_insertionSort (α := ℚ) (· ≤ ·)
          (psnrWalk dist nf original 0 [])
        have hlen' := not_not.mp hlen
        have hnil : (psnrWalk dist nf original 0 []).insertionSort (· ≤ ·)
            ≠ [] := by
          intro hc
          have := hperm.length_eq
          rw [hc] at this
          simp only [List.length_nil] at this
          rw [hlen'] at this
          exact hne (List.length_eq_zero.mp this.symm)
        refine ⟨hlen', ?_, ?_, ?_, ?_, rfl, hsorted, hperm⟩
        · intro x hx
          have hx' := hperm.mem_iff.mpr hx
          exact ⟨sorted_headD_le _ hsorted x hx',
            sorted_le_getLastD _ hsorted x hx'⟩
        · exact hperm.mem_iff.mp (headD_mem _ hnil)
        · exact hperm.mem_iff.mp (getLastD_mem _ hnil)
        · show ((psnrWalk dist nf original 0 []).insertionSort
            (· ≤ ·)).sum / (original.length : ℚ) = _
          rw [hperm.sum_eq]

/-- Witness for C8: two original frames, a two-frame decode, a total
    distortion oracle. -/
theorem c8_psnr_stats_contract_witness :
    (([⟨0, 0⟩, ⟨1, 40⟩] : List UFrame) ≠ [])
    ∧ (∀ nf : List UFrame,
        (some [⟨5, 0⟩, ⟨6, 40⟩] : Option (List UFrame)) = some nf →
        nf ≠ [])
    ∧ ((∀ (nf : List UFrame) (idx : Nat) (t : Int),
         advIdx nf idx t ≠ idx →
         (advIdx nf idx t = idx + 1 ∧ idx + 1 < nf.length
          ∧ (nf.getD (idx + 1) default).timestamp = t))
      ∧ ((animData2PSNR (fun a b => some ((a : ℚ) + b))
            [⟨0, 0⟩, ⟨1, 40⟩] (some [⟨5, 0⟩, ⟨6, 40⟩])).1
            ≠ UtilsStatus.kOk
         ↔ (animData2PSNR (fun a b => some ((a : ℚ) + b))
            [⟨0, 0⟩, ⟨1, 40⟩] (some [⟨5, 0⟩, ⟨6, 40⟩])).2.psnr.length
             ≠ ([⟨0, 0⟩, ⟨1, 40⟩] : List UFrame).length)
      ∧ ((animData2PSNR (fun a b => some ((a : ℚ) + b))
            [⟨0, 0⟩, ⟨1, 40⟩] (some [⟨5, 0⟩, ⟨6, 40⟩])).1
            = UtilsStatus.kOk →
         (animData2PSNR (fun a b => some ((a : ℚ) + b))
            [⟨0, 0⟩, ⟨1, 40⟩] (some [⟨5, 0⟩, ⟨6, 40⟩])).2.psnr.length
             = ([⟨0, 0⟩, ⟨1, 40⟩] : List UFrame).length
         ∧ (∀ x ∈ (animData2PSNR (fun a b => some ((a : ℚ) + b))
              [⟨0, 0⟩, ⟨1, 40⟩] (some [⟨5, 0⟩, ⟨6, 40⟩])).2.psnr,
              (animData2PSNR (fun a b => some ((a : ℚ) + b))
                [⟨0, 0⟩, ⟨1, 40⟩] (some [⟨5, 0⟩, ⟨6, 40⟩])).2.min_psnr ≤ x
              ∧ x ≤ (animData2PSNR (fun a b => some ((a : ℚ) + b))
                [⟨0, 0⟩, ⟨1, 40⟩] (some [⟨5, 0⟩, ⟨6, 40⟩])).2.max_psnr)
         ∧ (animData2PSNR (fun a b => some ((a : ℚ) + b))
              [⟨0, 0⟩, ⟨1, 40⟩] (some [⟨5, 0⟩, ⟨6, 40⟩])).2.min_psnr
             ∈ (animData2PSNR (fun a b => some ((a : ℚ) + b))
              [⟨0, 0⟩, ⟨1, 40⟩] (some [⟨5, 0⟩, ⟨6, 40⟩])).2.psnr
         ∧ (animData2PSNR (fun a b => some ((a : ℚ) + b))
              [⟨0, 0⟩, ⟨1, 40⟩] (some [⟨5, 0⟩, ⟨6, 40⟩])).2.max_psnr
             ∈ (animData2PSNR (fun a b => some ((a : ℚ) + b))
              [⟨0, 0⟩, ⟨1, 40⟩] (some [⟨5, 0⟩, ⟨6, 40⟩])).2.psnr
         ∧ (animData2PSNR (fun a b => some ((a : ℚ) + b))
              [⟨0, 0⟩, ⟨1, 40⟩] (some [⟨5, 0⟩, ⟨6, 40⟩])).2.mean_psnr
             = ((animData2PSNR (fun a b => some ((a : ℚ) + b))
              [⟨0, 0⟩, ⟨1, 40⟩] (some [⟨5, 0⟩, ⟨6, 40⟩])).2.psnr).sum
               / (([⟨0, 0⟩, ⟨1, 40⟩] : List UFrame).length : ℚ)
         ∧ (animData2PSNR (fun a b => some ((a : ℚ) + b))
              [⟨0, 0⟩, ⟨1, 40⟩] (some [⟨5, 0⟩, ⟨6, 40⟩])).2.median_psnr
             = (((animData2PSNR (fun a b => some ((a : ℚ) + b))
              [⟨0, 0⟩, ⟨1, 40⟩] (some [⟨5, 0⟩, ⟨6,
                40⟩])).2.psnr).insertionSort (· ≤ ·)).getD
               (([⟨0, 0⟩, ⟨1, 40⟩] : List UFrame).length / 2) 0
         ∧ List.Sorted (· ≤ ·)
             (((animData2PSNR (fun a b => some ((a : ℚ) + b))
              [⟨0, 0⟩, ⟨1, 40⟩] (some [⟨5, 0⟩, ⟨6,
                40⟩])).2.psnr).insertionSort (· ≤ ·))
         ∧ ((((animData2PSNR (fun a b => some ((a : ℚ) + b))
              [⟨0, 0⟩, ⟨1, 40⟩] (some [⟨5, 0⟩, ⟨6,
                40⟩])).2.psnr).insertionSort (· ≤ ·)).Perm
             ((animData2PSNR (fun a b => some ((a : ℚ) + b))
              [⟨0, 0⟩, ⟨1, 40⟩] (some [⟨5, 0⟩, ⟨6, 40⟩])).2.psnr)))) :=
  ⟨by simp, fun nf h => by injection h with h'; rw [← h']; simp,
   c8_psnr_stats_contract (fun a b => some ((a : ℚ) + b))
     [⟨0, 0⟩, ⟨1, 40⟩] (some [⟨5, 0⟩, ⟨6, 40⟩]) (by simp)
     (fun nf h => by injection h with h'; rw [← h']; simp)⟩

end Libwebp

namespace Libwebp

/-! ### C3: how often the refinement and top-up passes run -/

/-- Unfolding of one step of the refinement loop (zeta-expanded form of the
    defining equation at positive fuel). -/
theorem refineLoop_succ (c : Codec) (B : Nat) (frames : List FrameData)
    (webp : WebPData) (curr fuel : Nat) :
    refineLoop c B frames webp curr (fuel + 1)
      = (if (lossyEncodeNoSlopeOptim c B frames webp).1 ≠ Status.kOk then
           ((lossyEncodeNoSlopeOptim c B frames webp).1,
            (lossyEncodeNoSlopeOptim c B frames webp).2.1,
            (lossyEncodeNoSlopeOptim c B frames webp).2.2,
            [(lossyEncodeNoSlopeOptim c B frames webp).2.2.size c])
         else if curr = (lossyEncodeNoSlopeOptim c B frames webp).2.2.size c
         then
           (Status.kOk, (lossyEncodeNoSlopeOptim c B frames webp).2.1,
            (lossyEncodeNoSlopeOptim c B frames webp).2.2,
            [(lossyEncodeNoSlopeOptim c B frames webp).2.2.size c])
         else
           ((refineLoop c B (lossyEncodeNoSlopeOptim c B frames webp).2.1
               (lossyEncodeNoSlopeOptim c B frames webp).2.2
               ((lossyEncodeNoSlopeOptim c B frames webp).2.2.size c)
               fuel).1,
            (refineLoop c B (lossyEncodeNoSlopeOptim c B frames webp).2.1
               (lossyEncodeNoSlopeOptim c B frames webp).2.2
               ((lossyEncodeNoSlopeOptim c B frames webp).2.2.size c)
               fuel).2.1,
            (refineLoop c B (lossyEncodeNoSlopeOptim c B frames webp).2.1
               (lossyEncodeNoSlopeOptim c B frames webp).2.2
               ((lossyEncodeNoSlopeOptim c B frames webp).2.2.size c)
               fuel).2.2.1,
            (lossyEncodeNoSlopeOptim c B frames webp).2.2.size c
              :: (refineLoop c B
                    (lossyEncodeNoSlopeOptim c B frames webp).2.1
                    (lossyEncodeNoSlopeOptim c B frames webp).2.2
                    ((lossyEncodeNoSlopeOptim c B frames webp).2.2.size c)
                    fuel).2.2.2)) := rfl

/-- The refinement loop's size trace (one entry per execution of
    LossyEncodeNoSlopeOptim): at most `fuel` entries; at least one when
    there is fuel; every entry but the first exists only because the size
    changed at the preceding comparison; and a successful run that left
    fuel unused ended because its last size repeated the previous one. -/
theorem refineLoop_trace (c : Codec) (B : Nat) :
    ∀ (fuel : Nat) (frames : List FrameData) (webp : WebPData) (curr : Nat),
    (refineLoop c B frames webp curr fuel).2.2.2.length ≤ fuel
    ∧ (1 ≤ fuel → 1 ≤ (refineLoop c B frames webp curr fuel).2.2.2.length)
    ∧ (∀ i : Nat,
        i + 1 < (refineLoop c B frames webp curr fuel).2.2.2.length →
        (refineLoop c B frames webp curr fuel).2.2.2.getD i 0
          ≠ (curr :: (refineLoop c B frames webp curr fuel).2.2.2).getD i 0)
    ∧ ((refineLoop c B frames webp curr fuel).1 = Status.kOk →
       (refineLoop c B frames webp curr fuel).2.2.2.length < fuel →
       (refineLoop c B frames webp curr fuel).2.2.2.getD
           ((refineLoop c B frames webp curr fuel).2.2.2.length - 1) 0
         = (curr :: (refineLoop c B frames webp curr fuel).2.2.2).getD
           ((refineLoop c B frames webp curr fuel).2.2.2.length - 1) 0) := by
  intro fuel
  induction fuel with
  | zero =>
    intro frames webp curr
    refine ⟨?_, ?_, ?_, ?_⟩
    · show (0 : Nat) ≤ 0
      omega
    · intro h
      omega
    · intro i hi
      have h' : i + 1 < 0 := hi
      omega
    · intro _ hlen
      have h' : (0 : Nat) < 0 := hlen
      omega
  | succ fuel ih =>
    intro frames webp curr
    rw [refineLoop_succ]
    by_cases h1 : (lossyEncodeNoSlopeOptim c B frames webp).1 = Status.kOk
    · rw [if_neg (not_not_intro h1)]
      by_cases h2 : curr = (lossyEncodeNoSlopeOptim c B frames webp).2.2.size c
      · rw [if_pos h2]
        refine ⟨?_, ?_, ?_, ?_⟩
        · show (1 : Nat) ≤ fuel + 1
          omega
        · intro _
          show (1 : Nat) ≤ 1
          omega
        · intro i hi
          have h' : i + 1 < 1 := hi
          omega
        · intro _ _
          show (lossyEncodeNoSlopeOptim c B frames webp).2.2.size c = curr
          exact h2.symm
      · rw [if_neg h2]
        obtain ⟨ihlen, ihone, ihadj, ihstop⟩ :=
          ih (lossyEncodeNoSlopeOptim c B frames webp).2.1
             (lossyEncodeNoSlopeOptim c B frames webp).2.2
             ((lossyEncodeNoSlopeOptim c B frames webp).2.2.size c)
        set rl := refineLoop c B
          (lossyEncodeNoSlopeOptim c B frames webp).2.1
          (lossyEncodeNoSlopeOptim c B frames webp).2.2
          ((lossyEncodeNoSlopeOptim c B frames webp).2.2.size c) fuel
          with hrl
        refine ⟨?_, ?_, ?_, ?_⟩
        · dsimp only
          simp only [List.length_cons]
          omega
        · intro _
          dsimp only
          simp only [List.length_cons]
          omega
        · intro i hi
          dsimp only at hi ⊢
          cases i with
          | zero =>
            simp only [List.getD_cons_zero]
            exact fun hh => h2 hh.symm
          | succ k =>
            simp only [List.getD_cons_succ]
            refine ihadj k ?_
            simp only [List.length_cons] at hi
            omega
        · intro hok hlen
          dsimp only at hok hlen ⊢
          simp only [List.length_cons] at hlen ⊢
          have h1f : 1 ≤ fuel := by omega
          have hone := ihone h1f
          have hfl : rl.2.2.2.length < fuel := by omega
          obtain ⟨m, hm⟩ : ∃ m, rl.2.2.2.length = m + 1 :=
            ⟨rl.2.2.2.length - 1, by omega⟩
          have hst := ihstop hok hfl
          rw [hm] at hst
          simp only [Nat.add_sub_cancel] at hst
          rw [hm]
          simp only [Nat.add_sub_cancel, List.getD_cons_succ]
          exact hst
    · rw [if_pos h1]
      refine ⟨?_, ?_, ?_, ?_⟩
      · show (1 : Nat) ≤ fuel + 1
        omega
      · intro _
        show (1 : Nat) ≤ 1
        omega
      · intro i hi
        have h' : i + 1 < 1 := hi
        omega
      · intro hok _
        exact absurd hok h1

/-- C3 (amended): in every budgeted run the refinement pass
    (LossyEncodeNoSlopeOptim) is executed at most 5 times, each execution
    after the first happens only because the animation size changed at the
    preceding comparison, and a successful loop that stopped before
    exhausting its 5 iterations stopped because the size repeated; but
    ExtraLossyEncode does not run exactly once in every successful run: it
    runs exactly once precisely when the first two stages succeed, some
    frame is near-lossless, and the refinement loop succeeds — on the
    no-near-lossless path (num_near_lossless_frames == 0, line 37 of
    thumbnailer_slope_optim.cc) a successful run executes it zero
    times. -/
theorem c3_amended_refine_bounded (c : Codec) (B minQ : Nat)
    (nle eqQ : PipelineStage) (frames : List FrameData) (webp : WebPData) :
    (generateAnimationSlopeOptim c B minQ nle eqQ frames webp).2.2.2.1 ≤ 5
    ∧ ((generateAnimationSlopeOptim c B minQ nle eqQ frames
          webp).2.2.2.2 = 0
       ∨ (generateAnimationSlopeOptim c B minQ nle eqQ frames
          webp).2.2.2.2 = 1)
    ∧ ((generateAnimationSlopeOptim c B minQ nle eqQ frames
          webp).2.2.2.2 = 1 ↔
       ((lossyEncodeSlopeOptim c B minQ frames webp).1 = Status.kOk
        ∧ (nle c (lossyEncodeSlopeOptim c B minQ frames webp).2.1
             (lossyEncodeSlopeOptim c B minQ frames webp).2.2).1
            = Status.kOk
        ∧ ((nle c (lossyEncodeSlopeOptim c B minQ frames webp).2.1
             (lossyEncodeSlopeOptim c B minQ frames webp).2.2).2.1.filter
              (fun f => f.near_lossless)).length ≠ 0
        ∧ (refineLoop c B
             (nle c (lossyEncodeSlopeOptim c B minQ frames webp).2.1
               (lossyEncodeSlopeOptim c B minQ frames webp).2.2).2.1
             (nle c (lossyEncodeSlopeOptim c B minQ frames webp).2.1
               (lossyEncodeSlopeOptim c B minQ frames webp).2.2).2.2
             ((nle c (lossyEncodeSlopeOptim c B minQ frames webp).2.1
               (lossyEncodeSlopeOptim c B minQ frames webp).2.2).2.2.size c)
             5).1 = Status.kOk))
    ∧ (∀ (fr : List FrameData) (w : WebPData) (curr : Nat),
        (∀ i : Nat, i + 1 < (refineLoop c B fr w curr 5).2.2.2.length →
          (refineLoop c B fr w curr 5).2.2.2.getD i 0
            ≠ (curr :: (refineLoop c B fr w curr 5).2.2.2).getD i 0)
        ∧ ((refineLoop c B fr w curr 5).1 = Status.kOk →
           (refineLoop c B fr w curr 5).2.2.2.length < 5 →
           (refineLoop c B fr w curr 5).2.2.2.getD
               ((refineLoop c B fr w curr 5).2.2.2.length - 1) 0
             = (curr :: (refineLoop c B fr w curr 5).2.2.2).getD
               ((refineLoop c B fr w curr 5).2.2.2.length - 1) 0)) := by
  have hmain :
      (generateAnimationSlopeOptim c B minQ nle eqQ frames
          webp).2.2.2.1 ≤ 5
      ∧ ((generateAnimationSlopeOptim c B minQ nle eqQ frames
            webp).2.2.2.2 = 0
         ∨ (generateAnimationSlopeOptim c B minQ nle eqQ frames
            webp).2.2.2.2 = 1)
      ∧ ((generateAnimationSlopeOptim c B minQ nle eqQ frames
            webp).2.2.2.2 = 1 ↔
         ((lossyEncodeSlopeOptim c B minQ frames webp).1 = Status.kOk
          ∧ (nle c (lossyEncodeSlopeOptim c B minQ frames webp).2.1
               (lossyEncodeSlopeOptim c B minQ frames webp).2.2).1
              = Status.kOk
          ∧ ((nle c (lossyEncodeSlopeOptim c B minQ frames webp).2.1
               (lossyEncodeSlopeOptim c B minQ frames webp).2.2).2.1.filter
                (fun f => f.near_lossless)).length ≠ 0
          ∧ (refineLoop c B
               (nle c (lossyEncodeSlopeOptim c B minQ frames webp).2.1
                 (lossyEncodeSlopeOptim c B minQ frames webp).2.2).2.1
               (nle c (lossyEncodeSlopeOptim c B minQ frames webp).2.1
                 (lossyEncodeSlopeOptim c B minQ frames webp).2.2).2.2
               ((nle c (lossyEncodeSlopeOptim c B minQ frames
                   webp).2.1
                 (lossyEncodeSlopeOptim c B minQ frames
                   webp).2.2).2.2.size c)
               5).1 = Status.kOk)) := by
    rw [generateAnimationSlopeOptim]
    by_cases h1 : (lossyEncodeSlopeOptim c B minQ frames webp).1
        = Status.kOk
    · rw [if_neg (not_not_intro h1)]
      by_cases h2 : (nle c (lossyEncodeSlopeOptim c B minQ frames
            webp).2.1
          (lossyEncodeSlopeOptim c B minQ frames webp).2.2).1 = Status.kOk
      · rw [if_neg (not_not_intro h2)]
        by_cases h3 : ((nle c (lossyEncodeSlopeOptim c B minQ frames
              webp).2.1
            (lossyEncodeSlopeOptim c B minQ frames webp).2.2).2.1.filter
              (fun f => f.near_lossless)).length = 0
        · rw [if_pos h3]
          by_cases h4 : (eqQ c (nle c (lossyEncodeSlopeOptim c B minQ
                frames webp).2.1
              (lossyEncodeSlopeOptim c B minQ frames webp).2.2).2.1
              (nle c (lossyEncodeSlopeOptim c B minQ frames webp).2.1
                (lossyEncodeSlopeOptim c B minQ frames
                  webp).2.2).2.2).1 = Status.kOk
          · rw [if_neg (not_not_intro h4)]
            dsimp only
            exact ⟨by omega, Or.inl rfl,
              fun h01 => absurd h01 (by norm_num),
              fun hr => absurd h3 hr.2.2.1⟩
          · rw [if_pos h4]
            dsimp only
            exact ⟨by omega, Or.inl rfl,
              fun h01 => absurd h01 (by norm_num),
              fun hr => absurd h3 hr.2.2.1⟩
        · rw [if_neg h3]
          by_cases h5 : (refineLoop c B
              (nle c (lossyEncodeSlopeOptim c B minQ frames webp).2.1
                (lossyEncodeSlopeOptim c B minQ frames webp).2.2).2.1
              (nle c (lossyEncodeSlopeOptim c B minQ frames webp).2.1
                (lossyEncodeSlopeOptim c B minQ frames webp).2.2).2.2
              ((nle c (lossyEncodeSlopeOptim c B minQ frames webp).2.1
                (lossyEncodeSlopeOptim c B minQ frames
                  webp).2.2).2.2.size c)
              5).1 = Status.kOk
          · rw [if_neg (not_not_intro h5)]
            dsimp only
            exact ⟨(refineLoop_trace c B 5 _ _ _).1, Or.inr rfl,
              fun _ => ⟨h1, h2, h3, h5⟩, fun _ => rfl⟩
          · rw [if_pos h5]
            dsimp only
            exact ⟨(refineLoop_trace c B 5 _ _ _).1, Or.inl rfl,
              fun h01 => absurd h01 (by norm_num),
              fun hr => absurd hr.2.2.2 h5⟩
      · rw [if_pos h2]
        dsimp only
        exact ⟨by omega, Or.inl rfl,
          fun h01 => absurd h01 (by norm_num),
          fun hr => absurd hr.2.1 h2⟩
    · rw [if_pos h1]
      dsimp only
      exact ⟨by omega, Or.inl rfl,
        fun h01 => absurd h01 (by norm_num),
        fun hr => absurd hr.1 h1⟩
  exact ⟨hmain.1, hmain.2.1, hmain.2.2,
    fun fr w curr => ⟨(refineLoop_trace c B 5 fr w curr).2.2.1,
      (refineLoop_trace c B 5 fr w curr).2.2.2⟩⟩

/-- Witness instantiating the C3 bound at the concrete single-frame run. -/
theorem c3_amended_refine_bounded_witness :
    (generateAnimationSlopeOptim cRamp 100 0 nleKeep eqQEmpty framesW1
        WebPData.empty).2.2.2.1 ≤ 5
    ∧ ((generateAnimationSlopeOptim cRamp 100 0 nleKeep eqQEmpty framesW1
        WebPData.empty).2.2.2.2 = 0
       ∨ (generateAnimationSlopeOptim cRamp 100 0 nleKeep eqQEmpty framesW1
        WebPData.empty).2.2.2.2 = 1) :=
  ⟨(c3_amended_refine_bounded cRamp 100 0 nleKeep eqQEmpty framesW1
      WebPData.empty).1,
   (c3_amended_refine_bounded cRamp 100 0 nleKeep eqQEmpty framesW1
      WebPData.empty).2.1⟩

/-- A constant codec: every quality encodes to 7 bytes at 50 dB, and any
    payload assembles to 10 bytes. -/
def cConst : Codec := ⟨fun _ _ => (7, 50), fun _ => 10⟩

/-- C3 as stated is false on its "ExtraLossyEncode then runs exactly once"
    part: in this run every stage succeeds (the returned status is kOk),
    but no frame is near-lossless, so GenerateAnimationSlopeOptim returns
    through GenerateAnimationEqualQuality at line 39 and ExtraLossyEncode
    is executed zero times, not once. -/
theorem c3_counterexample :
    (generateAnimationSlopeOptim cConst 100 0 nleKeep eqQEmpty framesW1
        WebPData.empty).1 = Status.kOk
    ∧ (generateAnimationSlopeOptim cConst 100 0 nleKeep eqQEmpty framesW1
        WebPData.empty).2.2.2.2 = 0
    ∧ ¬ (generateAnimationSlopeOptim cConst 100 0 nleKeep eqQEmpty framesW1
        WebPData.empty).2.2.2.2 = 1 := by
  have hffs : findFrameSlope cConst 0 = some (0, RDSlope.undef) := by
    simp [findFrameSlope, fmsSearch, fdiv, cConst]
  have hsort : sortFrames framesW1 = framesW1 := rfl
  have hmed : findMedianSlope cConst framesW1 = RDSlope.undef := by
    simp only [findMedianSlope, framesW1, List.map_cons, List.map_nil,
      hffs]
    rfl
  have hloop : slopeOptimLoop cConst 100 RDSlope.undef framesW1
      (List.range framesW1.length) WebPData.empty 0 101
      = ([{ pid := 0, timestamp_ms := 0, config := ⟨100, false⟩,
            encoded_size := 0, final_quality := 50, final_psnr := 0,
            near_lossless := false }],
         WebPData.data [(0, ⟨50, false⟩)]) := by
    rw [slopeOptimLoop_eq_fuel cConst 100 RDSlope.undef 101 framesW1
      (List.range framesW1.length) WebPData.empty 0 101 (by norm_num)]
    decide
  have hp1 : lossyEncodeSlopeOptim cConst 100 0 framesW1 WebPData.empty
      = (Status.kOk,
         [{ pid := 0, timestamp_ms := 0, config := ⟨50, false⟩,
            encoded_size := 7, final_quality := 50, final_psnr := 50,
            near_lossless := false }],
         WebPData.data [(0, ⟨50, false⟩)]) := by
    rw [lossyEncodeSlopeOptim]
    simp only [hsort, hmed, hloop]
    decide
  rw [generateAnimationSlopeOptim]
  simp only [hp1]
  decide

end Libwebp
